import Mathlib

/-!
Verification development for the New Solar compiler front-end
(`compiler2/internals`): a shallow embedding of the data model
(`astnodes.py`, `nssymtab.py`), the symbol-table builder
(`nsstbuilder.py`), the semantic checker (`nschk.py`) and the lexer
(`nslex.py`), together with theorems settling the specification claims.

Python is untyped, so several "type" positions in the source can in fact
hold non-`Type` values at run time (a `TypeSymbol` returned by
`ExpandType`, a plain string stored by the parser into `IntExpr.type`,
`None`, or the literal `False` stored into `ArrayType.size` by
`GetExpressionType` for `AddrOfExpr`).  The embedding therefore extends
the `Ty` inductive with constructors for those junk values (`tySym`,
`pyStr`, `noneV`) and `Expr` with `falseLit`; `isinstance` tests in the
source are modelled by the `classTag`/`tyIsType` functions.  A Python
exception that is not a logged fatal diagnostic (AttributeError,
TypeError, unbound local, `raise Exception()`, ...) is modelled as the
error value `pycrash`, while `self._fatal(code, ...)` is `fatal code`.
-/

/-- Integer widths: the strings `int`, `long`, `quad` of the source. -/
inductive IntWidth where
  | int
  | long
  | quad
deriving DecidableEq, Repr

/-- The four span attributes every AST node carries
(`lineno`, `col_offset`, `end_lineno`, `end_col_offset`). -/
structure Span where
  lineno : Option Nat
  col_offset : Option Nat
  end_lineno : Option Nat
  end_col_offset : Option Nat
deriving DecidableEq, Repr

/-- A span with all four fields `None`, as freshly constructed nodes have. -/
def Span.none : Span := ⟨Option.none, Option.none, Option.none, Option.none⟩

/-- `astnodes.UnaryOp` subclasses. -/
inductive UnaryOp where
  | unaryPlus | unaryMinus | bitNot
deriving DecidableEq, Repr

/-- `astnodes.UnaryCOp` subclasses. -/
inductive UnaryCOp where
  | logicalNot
deriving DecidableEq, Repr

/-- `astnodes.BinOp` subclasses. -/
inductive BinOp where
  | add | sub | mult | udiv | sdiv | umod | smod
  | shLogLeft | shLogRight | shArRight | bitAnd | bitXor | bitOr
deriving DecidableEq, Repr

/-- `astnodes.BinCOp` subclasses. -/
inductive BinCOp where
  | logicalAnd | logicalOr | eq | notEq
  | ult | ultE | slt | sltE | ugt | ugtE | sgt | sgtE
deriving DecidableEq, Repr

mutual

/-- `astnodes.Type` subclasses, extended with the non-`Type` Python values
that flow through "type" positions at run time: `tySym` is a
`nssymtab.TypeSymbol` (as returned by `SymbolTable.get_typesym` and hence
by `ExpandType`), `pyStr` is a plain string (the parser stores the token's
`int_type` string into `IntExpr.type`), and `noneV` is Python `None`. -/
inductive Ty where
  | void (vol : Bool)
  | ref (vol : Bool) (name : String)
  | int (vol : Bool) (w : IntWidth)
  | array (vol : Bool) (inner : Ty) (size : Option Expr)
  | func (vol : Bool) (ret : Ty) (params : List Ty) (variadic : Bool)
  | strct (vol : Bool) (members : List Member)
  | union (vol : Bool) (members : List Member)
  | tySym (name : String) (type : Ty)
  | pyStr (s : String)
  | noneV

/-- `astnodes.MemberData`. -/
inductive Member where
  | mk (name : String) (type : Ty) (bits : Option Nat)

/-- The `value` field of `astnodes.ComplexExpr`: a list of expressions for
`array` initializers, a list of integers (the token's utf8 bytes) for
`str` initializers, and a name-keyed dict for `struct` initializers. -/
inductive ComplexVal where
  | exprs (es : List Expr)
  | bytes (bs : List Nat)
  | fields (fs : List (String × Expr))

/-- `astnodes.Expr` subclasses.  `intE` stores the `type` field as a `Ty`;
the parser supplies `pyStr "int" | "long" | "quad"` there, the checker's
synthesized `IntExpr`s carry a real `int` type.  `falseLit` is the Python
literal `False` which `GetExpressionType` stores into `ArrayType.size`
for `AddrOfExpr`. -/
inductive Expr where
  | name (sp : Span) (s : String)
  | intE (sp : Span) (t : Ty) (v : Nat)
  | strE (sp : Span) (utf8 : List Nat)
  | szexpr (sp : Span) (e : Expr)
  | sztype (sp : Span) (t : Ty)
  | call (sp : Span) (f : Expr) (args : List Expr)
  | index (sp : Span) (arr : Expr) (idx : Expr)
  | access (sp : Span) (rec : Expr) (member : String)
  | cast (sp : Span) (e : Expr) (t : Ty) (signed : Bool)
  | deref (sp : Span) (e : Expr)
  | addrOf (sp : Span) (e : Expr)
  | unary (sp : Span) (op : UnaryOp) (e : Expr)
  | unaryCond (sp : Span) (op : UnaryCOp) (e : Expr)
  | binary (sp : Span) (l : Expr) (op : BinOp) (r : Expr)
  | binaryCond (sp : Span) (l : Expr) (op : BinCOp) (r : Expr)
  | ternary (sp : Span) (c : Expr) (t : Expr) (f : Expr)
  | assign (sp : Span) (lhs : Expr) (rhs : Expr) (op : Option BinOp)
  | comma (sp : Span) (es : List Expr)
  | complex (sp : Span) (kind : String) (value : ComplexVal)
  | falseLit

end



/-- `nssymtab.NameSymbol` subclasses.  `var` keeps the declaring node's
`value` field (`VarSymbol.get_node().value` is read by the builder's
redeclaration check); `func` records whether a `FuncTable` was attached
(`FuncSymbol.get_created_functable() is not None`). -/
inductive NameSym where
  | var (type : Ty) (static : Bool) (declValue : Option Expr)
  | const (type : Ty) (static : Bool)
  | param (type : Ty)
  | func (type : Ty) (static : Bool) (inline : Bool) (functable : Bool)

/-- `NameSymbol.get_type`. -/
def NameSym.type : NameSym → Ty
  | .var t _ _ => t
  | .const t _ => t
  | .param t => t
  | .func t _ _ _ => t

/-- One `nssymtab.SymbolTable` scope: the three insertion-ordered
namespaces.  A `TypeSymbol` is the pair of its key and its stored type;
`LabelSymbol` carries no data beyond its name.  (The `referenced` flag and
the parent/child links are not modelled: a scope chain is represented as
the list of frames from the innermost scope out to the `ModuleTable`.) -/
structure Frame where
  kind : String
  names : List (String × NameSym)
  types : List (String × Ty)
  labels : List String

/-- A scope chain: innermost frame first, `ModuleTable` last.  Mirrors the
`_parent` walk of `SymbolTable._get_symbol`. -/
abbrev Scope := List Frame

/-- Association-list lookup, as `OrderedDict.get(name, None)`. -/
def lookupA {α : Type} : List (String × α) → String → Option α
  | [], _ => Option.none
  | (k, v) :: r, n => if k == n then some v else lookupA r n

/-- `SymbolTable.get_namesym` with `localonly=False`: look in this scope,
then walk the parents. -/
def getNamesym : Scope → String → Option NameSym
  | [], _ => Option.none
  | f :: r, n =>
    match lookupA f.names n with
    | some s => some s
    | Option.none => getNamesym r n

/-- `SymbolTable.get_namesym` with `localonly=True`. -/
def getNamesymLocal (sc : Scope) (n : String) : Option NameSym :=
  match sc with
  | [] => Option.none
  | f :: _ => lookupA f.names n

/-- `SymbolTable.get_typesym` with `localonly=False`: returns the
`TypeSymbol` (its name and stored type), not the stored type itself. -/
def getTypesym : Scope → String → Option (String × Ty)
  | [], _ => Option.none
  | f :: r, n =>
    match lookupA f.types n with
    | some t => some (n, t)
    | Option.none => getTypesym r n

/-- `SymbolTable.get_typesym` with `localonly=True`. -/
def getTypesymLocal (sc : Scope) (n : String) : Option (String × Ty) :=
  match sc with
  | [] => Option.none
  | f :: _ => (lookupA f.types n).map (fun t => (n, t))

/-- `SymbolTable.get_labelsym` with `localonly=False`.  A found label is
a bare `LabelSymbol` (no payload). -/
def getLabelsym : Scope → String → Option Unit
  | [], _ => Option.none
  | f :: r, n => if f.labels.contains n then some () else getLabelsym r n

/-- `isinstance(x, ast.Type)`: false for the non-`Type` run-time values. -/
def tyIsType : Ty → Bool
  | .tySym _ _ => false
  | .pyStr _ => false
  | .noneV => false
  | _ => true

/-- Python truthiness of a value in a type position (`None` is falsy,
every AST node, symbol and non-empty string is truthy; the parser never
produces an empty `int_type` string). -/
def tyTruthy : Ty → Bool
  | .noneV => false
  | _ => true

/-- `x.__class__` as a tag, to model `type1.__class__ != type2.__class__`
and `isinstance(from_type, to_type.__class__)`. -/
def classTag : Ty → Nat
  | .void _ => 0
  | .ref _ _ => 1
  | .int _ _ => 2
  | .array _ _ _ => 3
  | .func _ _ _ _ => 4
  | .strct _ _ => 5
  | .union _ _ => 6
  | .tySym _ _ => 7
  | .pyStr _ => 8
  | .noneV => 9

/-- `nsstbuilder.ExpandType`.  The source's loop is
`while isinstance(type, ast.RefType): type = scope.get_typesym(type.ref_type_name)`;
`get_typesym` returns a `TypeSymbol` (or `None`), and neither is a
`RefType`, so the loop body runs at most once and the function returns
the `TypeSymbol` itself — not the type it stores.  A non-`Type` argument
returns `None` by the guard on its first line. -/
def ExpandType (scope : Scope) (t : Ty) : Ty :=
  if tyIsType t = false then Ty.noneV
  else
    match t with
    | .ref _ n =>
      match getTypesym scope n with
      | some (k, ty) => Ty.tySym k ty
      | Option.none => Ty.noneV
    | t => t

mutual

/-- Pairwise comparison over `zip`: stops at the shorter list, as
`map(..., zip(xs, ys))` does. -/
def zipAllEq : List Ty → List Ty → Bool
  | t1 :: r1, t2 :: r2 => CompareTypesEq t1 t2 && zipAllEq r1 r2
  | _, _ => true

/-- `memEq` inside `nsstbuilder.CompareTypesEq`, over `zip`. -/
def zipAllMemEq : List Member → List Member → Bool
  | .mk n1 t1 b1 :: r1, .mk n2 t2 b2 :: r2 =>
    (n1 == n2 && b1 == b2 && CompareTypesEq t1 t2) && zipAllMemEq r1 r2
  | _, _ => true

/-- `nsstbuilder.CompareTypesEq`: structural comparison without any
expansion.  Array sizes are not compared; `IntType` volatility is not
compared either. -/
def CompareTypesEq (t1 t2 : Ty) : Bool :=
  if !tyIsType t1 || classTag t1 != classTag t2 then false
  else
    match t1, t2 with
    | .void _, .void _ => true
    | .ref _ n1, .ref _ n2 => n1 == n2
    | .int _ w1, .int _ w2 => w1 == w2
    | .array _ i1 _, .array _ i2 _ => CompareTypesEq i1 i2
    | .func _ r1 p1 v1, .func _ r2 p2 v2 =>
      if v1 != v2 then false
      else if !CompareTypesEq r1 r2 then false
      else if p1.length != p2.length then false
      else zipAllEq p1 p2
    | .strct _ m1, .strct _ m2 =>
      if m1.length != m2.length then false else zipAllMemEq m1 m2
    | .union _ m1, .union _ m2 =>
      if m1.length != m2.length then false else zipAllMemEq m1 m2
    | _, _ => false

end

/-- `nsstbuilder.CompareTypesEquiv`.  Returns `some b` for a Boolean
result and `none` where the source raises a `TypeError`: the recursive
calls in the `FuncType` arm (`CompareTypesEquiv(type1.return_type, ...)`)
omit the mandatory `scope` argument, and the `Struct`/`Union` arm maps a
two-parameter `memEq` over a zip of pairs, so both arms crash as soon as
they are evaluated (for records, only when at least one member pair
exists: over an empty zip `False not in map(...)` is `True`).

Expansion (`ExpandType`) is the identity on every `Type` that is not a
`RefType`, and on a `RefType` it yields a `TypeSymbol` or `None` — never
an `ArrayType`/`FuncType`/record — so the `ArrayType` recursion and the
crashing arms are reached exactly when both arguments are literally of
that class; the match below is organised around that fact.  Two expanded
`TypeSymbol`s share a class, match no `isinstance` arm, and fall through
to `CompareTypesEq`, whose `isinstance(type1, ast.Type)` guard fails:
the result is `False` even for two identical defined `RefType`s. -/
def CompareTypesEquiv (scope : Scope) : Ty → Ty → Option Bool
  | .array _ i1 _, .array _ i2 _ => CompareTypesEquiv scope i1 i2
  | t1, t2 =>
    if !tyIsType t1 || !tyIsType t2 then some false
    else
      let e1 := ExpandType scope t1
      let e2 := ExpandType scope t2
      if !tyTruthy e1 || !tyTruthy e2 then some false
      else if classTag e1 != classTag e2 then some false
      else
        match e1, e2 with
        | .func _ _ _ v1, .func _ _ _ v2 =>
          if v1 != v2 then some false
          else Option.none
        | .strct _ m1, .strct _ m2 =>
          if m1.length != m2.length then some false
          else if m1.length == 0 then some true
          else Option.none
        | .union _ m1, .union _ m2 =>
          if m1.length != m2.length then some false
          else if m1.length == 0 then some true
          else Option.none
        | e1, e2 => some (CompareTypesEq e1 e2)

/-- `nschk.CanCastTypes`.  `some true` models the source's `None`
("castable"), `some false` a returned error string, `none` a crash
propagated out of `CompareTypesEquiv`.  The family check is
`isinstance(_, (IntType, ArrayType, FuncType))`; outside the family the
source compares classes (`isinstance(from_type, to_type.__class__)`) and
then falls back to equivalence. -/
def tyFamily : Ty → Bool
  | .int _ _ => true
  | .array _ _ _ => true
  | .func _ _ _ _ => true
  | _ => false

def CanCastTypes (scope : Scope) (fromT toT : Ty) : Option Bool :=
  if tyFamily toT then
    if !tyFamily fromT then some false else some true
  else
    if classTag fromT != classTag toT then some false
    else
      match CompareTypesEquiv scope fromT toT with
      | Option.none => Option.none
      | some true => some true
      | some false => some false

/-- Search `members` for `expr.member_name`, as the loop in
`GetExpressionType`'s `AccessExpr` arm. -/
def findMemberTy (scope : Scope) (ms : List Member) (n : String) : Option Ty :=
  match ms with
  | [] => Option.none
  | .mk mn mt _ :: r =>
    if mn == n then some (ExpandType scope mt) else findMemberTy scope r n

mutual

/-- `nschk.GetExpressionType`.  `none` models any Python exception
(the explicit `raise Exception()` arms, `AttributeError` on a missing
attribute, `IndexError`/`KeyError` on `value[0]` or `exprs[-1]`, or a
lookup miss followed by `.get_type()` on `None`); `some t` is the
returned value, which by the `ExpandType` behaviour above may well be a
`TypeSymbol` or `None` rather than an AST type. -/
def GetExpressionType (scope : Scope) : Expr → Option Ty
  | .name _ s =>
    match getNamesym scope s with
    | Option.none => Option.none
    | some sym => some (ExpandType scope sym.type)
  | .intE _ t _ => some t
  | .strE _ u =>
    some (.array false (.int false .int)
      (some (.intE Span.none (.int false .int) u.length)))
  | .szexpr _ _ => some (.int false .long)
  | .sztype _ _ => some (.int false .long)
  | .call _ f _ =>
    match GetExpressionType scope f with
    | Option.none => Option.none
    | some tf =>
      match ExpandType scope tf with
      | .func _ ret _ _ => some (ExpandType scope ret)
      | _ => Option.none
  | .index _ arr _ =>
    match GetExpressionType scope arr with
    | Option.none => Option.none
    | some ta =>
      match ExpandType scope ta with
      | .array _ inner _ => some (ExpandType scope inner)
      | _ => Option.none
  | .access _ r m =>
    match GetExpressionType scope r with
    | Option.none => Option.none
    | some tr =>
      match ExpandType scope tr with
      | .strct _ ms => findMemberTy scope ms m
      | .union _ ms => findMemberTy scope ms m
      | _ => Option.none
  | .cast _ _ t _ => some (ExpandType scope t)
  | .deref _ e =>
    match GetExpressionType scope e with
    | Option.none => Option.none
    | some tp =>
      match ExpandType scope tp with
      | .array _ inner _ => some (ExpandType scope inner)
      | _ => Option.none
  | .addrOf _ e =>
    match GetExpressionType scope e with
    | Option.none => Option.none
    | some te => some (.array false (ExpandType scope te) (some Expr.falseLit))
  | .unary _ _ e =>
    match GetExpressionType scope e with
    | Option.none => Option.none
    | some te => some (ExpandType scope te)
  | .unaryCond _ _ _ => some (.int false .int)
  | .binary _ l _ _ =>
    match GetExpressionType scope l with
    | Option.none => Option.none
    | some tl => some (ExpandType scope tl)
  | .binaryCond _ _ _ _ => some (.int false .int)
  | .ternary _ _ t _ =>
    match GetExpressionType scope t with
    | Option.none => Option.none
    | some tt => some (ExpandType scope tt)
  | .assign _ lhs _ _ =>
    match GetExpressionType scope lhs with
    | Option.none => Option.none
    | some tl => some (ExpandType scope tl)
  | .comma _ es =>
    match getExprTypeLast scope es with
    | Option.none => Option.none
    | some tl => some (ExpandType scope tl)
  | .complex _ kind v =>
    if kind == "str" || kind == "array" then
      match v with
      | .exprs (e0 :: rest) =>
        match GetExpressionType scope e0 with
        | Option.none => Option.none
        | some t0 =>
          some (.array false (ExpandType scope t0)
            (some (.intE Span.none (.int false .long) (e0 :: rest).length)))
      | _ => Option.none
    else if kind == "struct" then
      match v with
      | .fields fs =>
        match fieldsToMembers scope fs with
        | Option.none => Option.none
        | some ms => some (.strct false ms)
      | _ => Option.none
    else Option.none
  | .falseLit => Option.none

/-- `expr.exprs[-1]` followed by `GetExpressionType`; `[] → IndexError`. -/
def getExprTypeLast (scope : Scope) : List Expr → Option Ty
  | [] => Option.none
  | [e] => GetExpressionType scope e
  | _ :: e :: es => getExprTypeLast scope (e :: es)

/-- The member-building comprehension of the `struct` arm of
`GetExpressionType`. -/
def fieldsToMembers (scope : Scope) : List (String × Expr) → Option (List Member)
  | [] => some []
  | (n, e) :: fs =>
    match GetExpressionType scope e with
    | Option.none => Option.none
    | some t =>
      match fieldsToMembers scope fs with
      | Option.none => Option.none
      | some ms => some (.mk n (ExpandType scope t) Option.none :: ms)

end

/-- `nschk.ExprProperty`: the `(const, lvalue)` pair. -/
structure ExprProp where
  const : Bool
  lvalue : Bool
deriving DecidableEq, Repr

mutual

/-- `nschk.ExprPropertyChecker.visit`.  `some p` is a returned
`ExprProperty`; `none` is a Python exception: the `visit_TernaryExpr`
handler calls `true_prop.is_value()`, a method `ExprProperty` does not
have, so it raises `AttributeError` after visiting (only) the two value
branches; `generic_visit` on a node outside `_mapping` returns the bare
value `False`, on which the caller's `.is_const()`/`.is_lvalue()` raises.
The `_mapping` table supplies the constant pairs; `Name` is an lvalue iff
bound to a `VarSymbol` and constant iff bound to a `ConstSymbol` (an
unresolved name yields both `False` — no exception). -/
def propcheck (scope : Scope) : Expr → Option ExprProp
  | .name _ s =>
    match getNamesym scope s with
    | some (.var _ _ _) => some ⟨false, true⟩
    | some (.const _ _) => some ⟨true, false⟩
    | _ => some ⟨false, false⟩
  | .intE _ _ _ => some ⟨true, false⟩
  | .strE _ _ => some ⟨false, false⟩
  | .szexpr _ _ => some ⟨true, false⟩
  | .sztype _ _ => some ⟨true, false⟩
  | .call _ _ _ => some ⟨false, false⟩
  | .index _ _ _ => some ⟨false, true⟩
  | .access _ _ _ => some ⟨false, true⟩
  | .deref _ _ => some ⟨false, true⟩
  | .addrOf _ _ => some ⟨false, false⟩
  | .assign _ _ _ _ => some ⟨false, true⟩
  | .complex _ _ _ => some ⟨false, false⟩
  | .cast _ e _ _ => propcheck scope e
  | .unary _ _ e =>
    match propcheck scope e with
    | Option.none => Option.none
    | some p => some ⟨p.const, false⟩
  | .unaryCond _ _ e =>
    match propcheck scope e with
    | Option.none => Option.none
    | some p => some ⟨p.const, false⟩
  | .binary _ l _ r =>
    match propcheck scope l with
    | Option.none => Option.none
    | some pl =>
      match propcheck scope r with
      | Option.none => Option.none
      | some pr => some ⟨pl.const && pr.const, false⟩
  | .binaryCond _ l _ r =>
    match propcheck scope l with
    | Option.none => Option.none
    | some pl =>
      match propcheck scope r with
      | Option.none => Option.none
      | some pr => some ⟨pl.const && pr.const, false⟩
  | .ternary _ _ t f =>
    match propcheck scope t with
    | Option.none => Option.none
    | some _ =>
      match propcheck scope f with
      | Option.none => Option.none
      | some _ => Option.none
  | .comma _ es =>
    match propcheckList scope es with
    | Option.none => Option.none
    | some ps =>
      match ps.getLast? with
      | Option.none => Option.none
      | some pl => some ⟨ps.all (fun p => p.const), pl.lvalue⟩
  | .falseLit => Option.none

/-- The list comprehension in `visit_CommaExpr`. -/
def propcheckList (scope : Scope) : List Expr → Option (List ExprProp)
  | [] => some []
  | e :: es =>
    match propcheck scope e with
    | Option.none => Option.none
    | some p =>
      match propcheckList scope es with
      | Option.none => Option.none
      | some ps => some (p :: ps)

end

mutual

/-- `astnodes.Stmt` subclasses.  `compound` and the jump statements carry
the `symref` attachment made by the builder (the scope's `Frame`) and the
checker (the targeted statement) respectively. -/
inductive Stmt where
  | empty
  | defS (decl : Decl)
  | compound (symref : Option Frame) (stmts : List Stmt)
  | exprS (e : Expr)
  | cont (label : Option String) (symref : Option Stmt)
  | brk (breakif : Bool) (label : Option String) (symref : Option Stmt)
  | ret (e : Option Expr)
  | ifS (cond : Expr) (body : Stmt) (els : Option Stmt) (label : Option String)
  | iter (ini : Option Expr) (cond : Option Expr) (inc : Option Expr)
      (body : Stmt) (els : Option Stmt) (label : Option String)

/-- `astnodes.Decl` subclasses exercised by the claims (`TypeDecl` and its
pass-A circularity machinery are outside the fragment this file models;
no claim input contains one).  `funcDecl.symref` holds the `FuncTable`
frame the builder attaches through the `FuncSymbol`. -/
inductive Decl where
  | varDecl (name : String) (type : Ty) (value : Option Expr) (static : Bool)
  | constDecl (name : String) (type : Ty) (value : Expr) (static : Bool)
  | funcDecl (name : String) (type : Ty) (paramNames : List String)
      (body : Option Stmt) (static : Bool) (inline : Bool) (symref : Option Frame)

end

/-- `astnodes.Module` (named `NsModule` here: Mathlib already has `Module`). -/
structure NsModule where
  decls : List Decl

/-- Errors: a logged fatal diagnostic of the builder (`{ST##}`), of the
checker (`{C##}`), or an unlogged Python exception. -/
inductive Err where
  | stFatal (code : Nat)
  | chkFatal (code : Nat)
  | pycrash
deriving DecidableEq, Repr

/-- `OrderedDict` assignment: replace in place, else append. -/
def insertA {α : Type} : List (String × α) → String → α → List (String × α)
  | [], n, v => [(n, v)]
  | (k, x) :: r, n, v => if k == n then (n, v) :: r else (k, x) :: insertA r n v

/-- `SymbolTable._bind_symbol` for a name symbol into the current scope
(the head frame); without `overwrite` an existing key makes it a no-op
(the source returns `False`, which every caller ignores). -/
def bindName (stk : Scope) (n : String) (sym : NameSym) (overwrite : Bool) : Scope :=
  match stk with
  | [] => []
  | f :: r =>
    if !overwrite && (lookupA f.names n).isSome then f :: r
    else { f with names := insertA f.names n sym } :: r

/-- `SymbolTable._bind_symbol` for a type symbol. -/
def bindType (stk : Scope) (n : String) (t : Ty) (overwrite : Bool) : Scope :=
  match stk with
  | [] => []
  | f :: r =>
    if !overwrite && (lookupA f.types n).isSome then f :: r
    else { f with types := insertA f.types n t } :: r

/-- `SymbolTable.is_global` of the builder's `curtab`. -/
def scopeIsGlobal (stk : Scope) : Bool :=
  match stk with
  | f :: _ => f.kind == "module"
  | [] => false

/-- A fresh, empty scope of the given kind. -/
def Frame.empty (kind : String) : Frame := ⟨kind, [], [], []⟩

mutual

/-- Builder walk over expressions (`__STNodeVisitor` has no expression
handlers except `visit_NameExpr`, so this is `generic_visit` descent in
`iter_child_nodes` order).  Resolution failure of a `NameExpr` is the
fatal `{ST20}` `L_USE_BEFORE_DECL`; the `symref` attachment and the
`referenced` flag are not recorded (nothing in the claims reads them).
Binding never happens inside an expression, so the scope stack is read
only. -/
def buildExpr (stk : Scope) : Expr → Except Err Unit
  | .name _ s =>
    match getNamesym stk s with
    | Option.none => .error (.stFatal 20)
    | some _ => .ok ()
  | .intE _ t _ => if tyIsType t then buildTy stk t else .ok ()
  | .strE _ _ => .ok ()
  | .szexpr _ e => buildExpr stk e
  | .sztype _ t => if tyIsType t then buildTy stk t else .ok ()
  | .call _ f args => do
    buildExpr stk f
    buildExprList stk args
  | .index _ arr idx => do
    buildExpr stk arr
    buildExpr stk idx
  | .access _ r _ => buildExpr stk r
  | .cast _ e t _ => do
    buildExpr stk e
    if tyIsType t then buildTy stk t else .ok ()
  | .deref _ e => buildExpr stk e
  | .addrOf _ e => buildExpr stk e
  | .unary _ _ e => buildExpr stk e
  | .unaryCond _ _ e => buildExpr stk e
  | .binary _ l _ r => do
    buildExpr stk l
    buildExpr stk r
  | .binaryCond _ l _ r => do
    buildExpr stk l
    buildExpr stk r
  | .ternary _ c t f => do
    buildExpr stk c
    buildExpr stk t
    buildExpr stk f
  | .assign _ lhs rhs _ => do
    buildExpr stk lhs
    buildExpr stk rhs
  | .comma _ es => buildExprList stk es
  | .complex _ _ v =>
    match v with
    | .exprs es => buildExprList stk es
    | .bytes _ => .ok ()
    | .fields _ => .ok ()
  | .falseLit => .error .pycrash

def buildExprList (stk : Scope) : List Expr → Except Err Unit
  | [] => .ok ()
  | e :: es => do
    buildExpr stk e
    buildExprList stk es

/-- Builder `generic_visit` descent through a type node (the only effect
is resolving `NameExpr`s inside array sizes).  The junk arms are never
yielded by `iter_child_nodes` (they are not AST nodes); visiting one in
Python would crash on the missing `_fields`. -/
def buildTy (stk : Scope) : Ty → Except Err Unit
  | .void _ => .ok ()
  | .ref _ _ => .ok ()
  | .int _ _ => .ok ()
  | .array _ inner sz => do
    (if tyIsType inner then buildTy stk inner else .ok ())
    match sz with
    | some e => buildExpr stk e
    | Option.none => .ok ()
  | .func _ ret ps _ => do
    (if tyIsType ret then buildTy stk ret else .ok ())
    buildTyList stk ps
  | .strct _ ms => buildMemberList stk ms
  | .union _ ms => buildMemberList stk ms
  | .tySym _ _ => .error .pycrash
  | .pyStr _ => .error .pycrash
  | .noneV => .error .pycrash

def buildTyList (stk : Scope) : List Ty → Except Err Unit
  | [] => .ok ()
  | t :: ts => do
    (if tyIsType t then buildTy stk t else .ok ())
    buildTyList stk ts

def buildMemberList (stk : Scope) : List Member → Except Err Unit
  | [] => .ok ()
  | .mk _ t _ :: ms => do
    (if tyIsType t then buildTy stk t else .ok ())
    buildMemberList stk ms

end

mutual

/-- Builder walk over a statement, in either pass (`gp` is the visitor's
`globalpass` flag).  Returns the updated scope stack (same depth) and the
statement with the builder's `symref` annotations
(`CompoundStmt.symref = BlockTable`). -/
def buildStmt (gp : Bool) (stk : Scope) : Stmt → Except Err (Scope × Stmt)
  | .empty => .ok (stk, .empty)
  | .defS d => do
    let (stk', d') ← buildDecl gp stk d
    .ok (stk', .defS d')
  | .compound _ stmts => do
    let (stkIn, stmts') ← buildStmtList gp (Frame.empty "block" :: stk) stmts
    match stkIn with
    | fr :: rest => .ok (rest, .compound (some fr) stmts')
    | [] => .error .pycrash
  | .exprS e => do
    buildExpr stk e
    .ok (stk, .exprS e)
  | .cont l _ => .ok (stk, .cont l Option.none)
  | .brk b l _ => .ok (stk, .brk b l Option.none)
  | .ret e => do
    (match e with
     | some ex => buildExpr stk ex
     | Option.none => .ok ())
    .ok (stk, .ret e)
  | .ifS c b els lb => do
    buildExpr stk c
    let (stk1, b') ← buildStmt gp stk b
    match els with
    | some e => do
      let (stk2, e') ← buildStmt gp stk1 e
      .ok (stk2, .ifS c b' (some e') lb)
    | Option.none => .ok (stk1, .ifS c b' Option.none lb)
  | .iter ini c inc b els lb => do
    (match ini with
     | some e => buildExpr stk e
     | Option.none => .ok ())
    (match c with
     | some e => buildExpr stk e
     | Option.none => .ok ())
    (match inc with
     | some e => buildExpr stk e
     | Option.none => .ok ())
    let (stk1, b') ← buildStmt gp stk b
    match els with
    | some e => do
      let (stk2, e') ← buildStmt gp stk1 e
      .ok (stk2, .iter ini c inc b' (some e') lb)
    | Option.none => .ok (stk1, .iter ini c inc b' Option.none lb)

def buildStmtList (gp : Bool) (stk : Scope) : List Stmt → Except Err (Scope × List Stmt)
  | [] => .ok (stk, [])
  | s :: ss => do
    let (stk1, s') ← buildStmt gp stk s
    let (stk2, ss') ← buildStmtList gp stk1 ss
    .ok (stk2, s' :: ss')

/-- Builder walk over a declaration: `visit_VarDecl`, `visit_ConstDecl`
and `visit_FuncDecl` of `__STNodeVisitor`, with their redeclaration
checks and pass-dependent skipping.  Note `visit_ConstDecl` skips in the
local pass unconditionally — its guard is `if not self.globalpass`,
without the `self.curtab.is_global()` conjunct that `visit_VarDecl` and
`visit_TypeDecl` have — so a `ConstDecl` inside a function body is never
registered. -/
def buildDecl (gp : Bool) (stk : Scope) : Decl → Except Err (Scope × Decl)
  | .varDecl n t v st => do
    if !gp && scopeIsGlobal stk then .ok (stk, .varDecl n t v st)
    else do
      let bind : Except Err (Scope × Decl) := do
        let stk1 := bindName stk n (.var t st v) true
        buildTy stk1 t
        (match v with
         | some e => buildExpr stk1 e
         | Option.none => .ok ())
        .ok (stk1, .varDecl n t v st)
      match getNamesymLocal stk n with
      | some sym =>
        if !scopeIsGlobal stk then .error (.stFatal 15)
        else
          match sym with
          | .var vt vs vval =>
            if vs != st then .error (.stFatal 14)
            else if !CompareTypesEq vt t then .error (.stFatal 11)
            else if v.isSome && vval.isSome then .error (.stFatal 15)
            else if v.isNone then .ok (stk, .varDecl n t v st)
            else bind
          | _ => .error (.stFatal 10)
      | Option.none => bind
  | .constDecl n t v st => do
    if !gp then .ok (stk, .constDecl n t v st)
    else
      match getNamesymLocal stk n with
      | some _ => .error (.stFatal 15)
      | Option.none => do
        let stk1 := bindName stk n (.const t st) false
        buildTy stk1 t
        buildExpr stk1 v
        .ok (stk1, .constDecl n t v st)
  | .funcDecl n t pns body st inl _ => do
    let prev := getNamesymLocal stk n
    let earlyOut : Except Err Bool ←
      match prev with
      | some sym =>
        match sym with
        | .func ft fs fi ftab =>
          if fs != st then .error (.stFatal 12)
          else if fi != inl then .error (.stFatal 12)
          else if !CompareTypesEq ft t then .error (.stFatal 11)
          else if body.isSome && ftab then .error (.stFatal 15)
          else .ok body.isNone
        | _ => .error (.stFatal 10)
      | Option.none => .ok false
    if earlyOut then .ok (stk, .funcDecl n t pns body st inl Option.none)
    else if gp || body.isNone then
      .ok (bindName stk n (.func t st inl false) false,
        .funcDecl n t pns body st inl Option.none)
    else
      match t with
      | .func _ _ ptys _ => do
        let stk1 := bindName stk n (.func t st inl true) true
        let ftab0 := Frame.empty "func"
        let ftab1 ← bindParams ftab0 (stk1) pns ptys
        buildTy (ftab1 :: stk1) t
        match body with
        | some b => do
          let (stkIn, b') ← buildStmt gp (ftab1 :: stk1) b
          match stkIn with
          | ftabF :: rest =>
            .ok (rest, .funcDecl n t pns (some b') st inl (some ftabF))
          | [] => .error .pycrash
        | Option.none => .error .pycrash
      | _ => .error .pycrash

/-- The parameter-binding loop of `visit_FuncDecl`
(`zip(fdecl.param_names, fdecl.type.param_types)` stops at the shorter
list); a duplicate name is the fatal `{ST13}` `L_FUNC_PARAM_TWICE`. -/
def bindParams (ftab : Frame) (below : Scope) : List String → List Ty → Except Err Frame
  | pn :: pns, pt :: pts =>
    if (lookupA ftab.names pn).isSome then .error (.stFatal 13)
    else bindParams { ftab with names := insertA ftab.names pn (.param pt) } below pns pts
  | _, _ => .ok ftab

def buildDeclList (gp : Bool) (stk : Scope) : List Decl → Except Err (Scope × List Decl)
  | [] => .ok (stk, [])
  | d :: ds => do
    let (stk1, d') ← buildDecl gp stk d
    let (stk2, ds') ← buildDeclList gp stk1 ds
    .ok (stk2, d' :: ds')

end

/-- `nsstbuilder.GenerateTable` / `__STNodeVisitor.visit_Module`: create
the `ModuleTable`, run the global pass over the module's children, then
re-walk in the local pass.  Returns the final module frame and the
module annotated by the local pass.  No visitor method of the builder
ever creates or binds a `LabelSymbol`, so every `labels` namespace stays
empty. -/
def buildModule (m : NsModule) : Except Err (Frame × NsModule) := do
  let stk0 : Scope := [Frame.empty "module"]
  let (stkG, _) ← buildDeclList true stk0 m.decls
  let (stkL, decls') ← buildDeclList false stkG m.decls
  match stkL with
  | [fr] => .ok (fr, ⟨decls'⟩)
  | _ => .error .pycrash

/-- The four span attributes of an expression node (`falseLit` is not an
AST node and has none). -/
def exprSpan : Expr → Span
  | .name sp _ => sp
  | .intE sp _ _ => sp
  | .strE sp _ => sp
  | .szexpr sp _ => sp
  | .sztype sp _ => sp
  | .call sp _ _ => sp
  | .index sp _ _ => sp
  | .access sp _ _ => sp
  | .cast sp _ _ _ => sp
  | .deref sp _ => sp
  | .addrOf sp _ => sp
  | .unary sp _ _ => sp
  | .unaryCond sp _ _ => sp
  | .binary sp _ _ _ => sp
  | .binaryCond sp _ _ _ => sp
  | .ternary sp _ _ _ => sp
  | .assign sp _ _ _ => sp
  | .comma sp _ => sp
  | .complex sp _ _ => sp
  | .falseLit => Span.none

/-- `isinstance(t, ast.IntType)`. -/
def isIntTy : Ty → Bool
  | .int _ _ => true
  | _ => false

/-- `isinstance(t, ast.VoidType)`. -/
def isVoidTy : Ty → Bool
  | .void _ => true
  | _ => false

/-- `isinstance(t, (ast.ArrayType, ast.FuncType))`. -/
def isArrFuncTy : Ty → Bool
  | .array _ _ _ => true
  | .func _ _ _ _ => true
  | _ => false

/-- The checker's visitor state: the `scope` cursor, the enclosing
function's expected return type (`noneV` models the initial `None`), and
the innermost enclosing `IfStmt`/`IterStmt` used by unlabeled jumps. -/
structure Ctx where
  scope : Scope
  retType : Ty
  lastIf : Option Stmt
  lastIter : Option Stmt

/-- `len(decl.value.value)`. -/
def complexLen : ComplexVal → Nat
  | .exprs es => es.length
  | .bytes bs => bs.length
  | .fields fs => fs.length

/-- `Checker.__check_Decl`: compare declared and initializer type, then
patch an unsized declared array type from a `Compound(array|str)`
initializer.  Returns the (possibly patched) declared type.  The source
reads `decl_type.size` only after `CompareTypesEquiv` succeeded, which
forces `decl_type` to be an `ArrayType` whenever the initializer is a
compound array; the non-array arm is the (unreachable) `AttributeError`. -/
def checkDeclInit (ctx : Ctx) (typ : Ty) (val : Option Expr) : Except Err Ty :=
  match val with
  | Option.none => .ok typ
  | some ve =>
    let declType := ExpandType ctx.scope typ
    match GetExpressionType ctx.scope ve with
    | Option.none => .error .pycrash
    | some exprType =>
      match CompareTypesEquiv ctx.scope declType exprType with
      | Option.none => .error .pycrash
      | some false => .error (.chkFatal 50)
      | some true =>
        match ve with
        | .complex _ kind v =>
          if kind != "struct" then
            match declType with
            | .array _ _ sz =>
              if sz.isNone then
                match typ with
                | .array tv ti _ =>
                  .ok (.array tv ti
                    (some (.intE Span.none (.int false .long) (complexLen v))))
                | _ => .ok typ
              else .ok typ
            | _ => .error .pycrash
          else .ok typ
        | _ => .ok typ

mutual

/-- Pass-B (`typedef_check == False`) visit of a type node.
`visit_RefType` returns at once in this pass; `visit_VoidType` is
unguarded and always fatal `{C40}`; `visit_ArrayType` (unguarded) visits
the inner type unless it is the pointer form `[]void`, then checks the
size expression and its constness (`{C50}` if non-constant);
`visit_FuncType` skips a `void` return type; record types descend into
`MemberData`, whose handler returns immediately in pass B.  The junk
arms crash: `iter_child_nodes` never yields them, and a direct `visit`
of such a value would fail on the missing `_fields`. -/
def checkTy (ctx : Ctx) : Ty → Except Err Ty
  | .void _ => .error (.chkFatal 40)
  | .ref v n => .ok (.ref v n)
  | .int v w => .ok (.int v w)
  | .array v inner sz => do
    let inner' ←
      if sz.isSome || !isVoidTy inner then
        if tyIsType inner then checkTy ctx inner else .error .pycrash
      else .ok inner
    match sz with
    | some se => do
      let se' ← checkExpr ctx se
      match propcheck ctx.scope se' with
      | Option.none => .error .pycrash
      | some p =>
        if !p.const then .error (.chkFatal 50)
        else .ok (.array v inner' (some se'))
    | Option.none => .ok (.array v inner' Option.none)
  | .func v ret ps vr => do
    let ret' ←
      if isVoidTy ret then .ok ret
      else if tyIsType ret then checkTy ctx ret else .error .pycrash
    let ps' ← checkTyList ctx ps
    .ok (.func v ret' ps' vr)
  | .strct v ms => .ok (.strct v ms)
  | .union v ms => .ok (.union v ms)
  | .tySym _ _ => .error .pycrash
  | .pyStr _ => .error .pycrash
  | .noneV => .error .pycrash

def checkTyList (ctx : Ctx) : List Ty → Except Err (List Ty)
  | [] => .ok []
  | t :: ts => do
    let t' ← if tyIsType t then checkTy ctx t else .error .pycrash
    let ts' ← checkTyList ctx ts
    .ok (t' :: ts')

/-- Pass-B visit of an expression: `generic_visit` into the children
first (each child dispatched through its own handler, so a rewritten
child replaces the original), then the handler's own checks.  `{C##}`
fatals follow `nschk.Checker`; `pycrash` marks the places where the
source raises a plain Python exception instead: `GetExpressionType` on
an unresolvable operand, `CompareTypesEquiv` reaching its broken arms,
the argument-mismatch fatal of `visit_CallExpr` whose message reads the
unbound locals `start`/`end`, and a property check on a node the
`ExprPropertyChecker` crashes on. -/
def checkExpr (ctx : Ctx) : Expr → Except Err Expr
  | .name sp s => .ok (.name sp s)
  | .intE sp t v =>
    if tyIsType t then
      match checkTy ctx t with
      | .error e => .error e
      | .ok t' => .ok (.intE sp t' v)
    else .ok (.intE sp t v)
  | .strE sp u => .ok (.strE sp u)
  | .szexpr sp e =>
    match checkExpr ctx e with
    | .error er => .error er
    | .ok e' => .ok (.szexpr sp e')
  | .sztype sp t =>
    if tyIsType t then
      match checkTy ctx t with
      | .error e => .error e
      | .ok t' => .ok (.sztype sp t')
    else .ok (.sztype sp t)
  | .call sp f args =>
    match checkExpr ctx f with
    | .error er => .error er
    | .ok f' =>
      match checkExprList ctx args with
      | .error er => .error er
      | .ok args' =>
        match GetExpressionType ctx.scope f' with
        | Option.none => .error .pycrash
        | some ft =>
          match ft with
          | .func _ _ ptys vr =>
            if args'.length < ptys.length ||
                !(vr || args'.length == ptys.length) then
              .error (.chkFatal 50)
            else
              match checkCallArgs ctx ptys args' with
              | .error er => .error er
              | .ok _ => .ok (.call sp f' args')
          | _ => .error (.chkFatal 50)
  | .index sp arr idx =>
    match checkExpr ctx arr with
    | .error er => .error er
    | .ok arr' =>
      match checkExpr ctx idx with
      | .error er => .error er
      | .ok idx' =>
        match GetExpressionType ctx.scope arr' with
        | Option.none => .error .pycrash
        | some at' =>
          match at' with
          | .array _ inner _ =>
            if isVoidTy inner then .error (.chkFatal 40)
            else
              match GetExpressionType ctx.scope idx' with
              | Option.none => .error .pycrash
              | some it =>
                match it with
                | .int _ w =>
                  if w == .int || w == .long then .ok (.index sp arr' idx')
                  else .error (.chkFatal 51)
                | _ => .error (.chkFatal 50)
          | _ => .error (.chkFatal 50)
  | .access sp r m =>
    match checkExpr ctx r with
    | .error er => .error er
    | .ok r' =>
      match GetExpressionType ctx.scope r' with
      | Option.none => .error .pycrash
      | some rt =>
        match rt with
        | .strct _ ms =>
          if ms.any (fun mb => match mb with | .mk mn _ _ => mn == m) then
            .ok (.access sp r' m)
          else .error (.chkFatal 60)
        | .union _ ms =>
          if ms.any (fun mb => match mb with | .mk mn _ _ => mn == m) then
            .ok (.access sp r' m)
          else .error (.chkFatal 60)
        | _ => .error (.chkFatal 50)
  | .cast sp e t sg =>
    match checkExpr ctx e with
    | .error er => .error er
    | .ok e' =>
      match (if tyIsType t then checkTy ctx t else .ok t) with
      | .error er => .error er
      | .ok t' =>
        match GetExpressionType ctx.scope e' with
        | Option.none => .error .pycrash
        | some innerT =>
          if sg && !isIntTy (ExpandType ctx.scope t') then .error (.chkFatal 50)
          else
            match CanCastTypes ctx.scope innerT (ExpandType ctx.scope t') with
            | Option.none => .error .pycrash
            | some false => .error (.chkFatal 50)
            | some true => .ok (.cast sp e' t' sg)
  | .deref sp e =>
    match checkExpr ctx e with
    | .error er => .error er
    | .ok e' =>
      match GetExpressionType ctx.scope e' with
      | Option.none => .error .pycrash
      | some pt =>
        match pt with
        | .array _ inner _ =>
          if isVoidTy inner then .error (.chkFatal 40)
          else .ok (.deref sp e')
        | _ => .error (.chkFatal 50)
  | .addrOf sp e =>
    match checkExpr ctx e with
    | .error er => .error er
    | .ok e' =>
      match propcheck ctx.scope e' with
      | Option.none => .error .pycrash
      | some p =>
        if !p.lvalue then .error (.chkFatal 50)
        else .ok (.addrOf sp e')
  | .unary sp op e =>
    match checkExpr ctx e with
    | .error er => .error er
    | .ok e' =>
      match GetExpressionType ctx.scope e' with
      | Option.none => .error .pycrash
      | some t =>
        if !isIntTy t then .error (.chkFatal 50)
        else .ok (.unary sp op e')
  | .unaryCond sp op e =>
    match checkExpr ctx e with
    | .error er => .error er
    | .ok e' =>
      match GetExpressionType ctx.scope e' with
      | Option.none => .error .pycrash
      | some t =>
        if !tyFamily t then .error (.chkFatal 50)
        else .ok (.unaryCond sp op e')
  | .binary sp l op r =>
    match checkExpr ctx l with
    | .error er => .error er
    | .ok l' =>
      match checkExpr ctx r with
      | .error er => .error er
      | .ok r' =>
        match GetExpressionType ctx.scope l' with
        | Option.none => .error .pycrash
        | some lt =>
          match GetExpressionType ctx.scope r' with
          | Option.none => .error .pycrash
          | some rt =>
            if !tyFamily lt then .error (.chkFatal 50)
            else if !tyFamily rt then .error (.chkFatal 50)
            else
              match CanCastTypes ctx.scope rt lt with
              | Option.none => .error .pycrash
              | some false => .error (.chkFatal 50)
              | some true =>
                if (isArrFuncTy lt || isArrFuncTy rt) &&
                    !(op == BinOp.add || op == BinOp.sub) then
                  .error (.chkFatal 50)
                else
                  -- the INT_SIZES up/downgrade warnings are log-only
                  match CompareTypesEquiv ctx.scope lt rt with
                  | Option.none => .error .pycrash
                  | some true => .ok (.binary sp l' op r')
                  | some false =>
                    -- bexpr.right = CastExpr(expr=right, cast_type=left
                    -- type, signed=False) with the right operand's spans
                    .ok (.binary sp l' op (.cast (exprSpan r') r' lt false))
  | .binaryCond sp l op r =>
    match checkExpr ctx l with
    | .error er => .error er
    | .ok l' =>
      match checkExpr ctx r with
      | .error er => .error er
      | .ok r' =>
        match GetExpressionType ctx.scope l' with
        | Option.none => .error .pycrash
        | some lt =>
          match GetExpressionType ctx.scope r' with
          | Option.none => .error .pycrash
          | some rt =>
            if !tyFamily lt then .error (.chkFatal 50)
            else if !tyFamily rt then .error (.chkFatal 50)
            else
              match CanCastTypes ctx.scope rt lt with
              | Option.none => .error .pycrash
              | some false => .error (.chkFatal 50)
              | some true =>
                if (isArrFuncTy lt || isArrFuncTy rt) &&
                    !(op == BinCOp.logicalAnd || op == BinCOp.logicalOr ||
                      op == BinCOp.eq || op == BinCOp.notEq) then
                  .error (.chkFatal 50)
                else
                  -- `if not isinstance(left_expr_type, (LogicalAnd,
                  -- LogicalOr))` compares a type against operator classes
                  -- and is always true: the conversion block always runs
                  match CompareTypesEquiv ctx.scope lt rt with
                  | Option.none => .error .pycrash
                  | some true => .ok (.binaryCond sp l' op r')
                  | some false =>
                    .ok (.binaryCond sp l' op (.cast (exprSpan r') r' lt false))
  | .ternary sp c t f =>
    match checkExpr ctx c with
    | .error er => .error er
    | .ok c' =>
      match checkExpr ctx t with
      | .error er => .error er
      | .ok t' =>
        match checkExpr ctx f with
        | .error er => .error er
        | .ok f' =>
          match GetExpressionType ctx.scope c' with
          | Option.none => .error .pycrash
          | some ct =>
            match GetExpressionType ctx.scope t' with
            | Option.none => .error .pycrash
            | some tt =>
              match GetExpressionType ctx.scope f' with
              | Option.none => .error .pycrash
              | some ft =>
                if !tyFamily ct then .error (.chkFatal 50)
                else
                  match CompareTypesEquiv ctx.scope tt ft with
                  | Option.none => .error .pycrash
                  | some false => .error (.chkFatal 50)
                  | some true => .ok (.ternary sp c' t' f')
  | .assign sp lhs rhs op =>
    match checkExpr ctx lhs with
    | .error er => .error er
    | .ok lhs' =>
      match checkExpr ctx rhs with
      | .error er => .error er
      | .ok rhs' =>
        match GetExpressionType ctx.scope lhs' with
        | Option.none => .error .pycrash
        | some lt =>
          match GetExpressionType ctx.scope rhs' with
          | Option.none => .error .pycrash
          | some rt =>
            match CompareTypesEquiv ctx.scope lt rt with
            | Option.none => .error .pycrash
            | some false => .error (.chkFatal 50)
            | some true =>
              match propcheck ctx.scope lhs' with
              | Option.none => .error .pycrash
              | some p =>
                if !p.lvalue then .error (.chkFatal 50)
                else
                  match op with
                  | some o =>
                    if !tyFamily lt then .error (.chkFatal 50)
                    else if isArrFuncTy lt &&
                        !(o == BinOp.add || o == BinOp.sub) then
                      .error (.chkFatal 50)
                    else .ok (.assign sp lhs' rhs' op)
                  | Option.none => .ok (.assign sp lhs' rhs' op)
  | .comma sp es =>
    match checkExprList ctx es with
    | .error er => .error er
    | .ok es' => .ok (.comma sp es')
  | .complex sp kind v =>
    match v with
    | ComplexVal.exprs es =>
      match checkExprList ctx es with
      | .error er => .error er
      | .ok es' =>
        if kind != "array" then .ok (.complex sp kind (ComplexVal.exprs es'))
        else
          match es' with
          | e0 :: rest =>
            match GetExpressionType ctx.scope e0 with
            | Option.none => .error .pycrash
            | some innerT =>
              match checkComplexElems ctx innerT (e0 :: rest) with
              | .error er => .error er
              | .ok _ => .ok (.complex sp kind (ComplexVal.exprs es'))
          | [] => .error .pycrash
    | w =>
      if kind != "array" then .ok (.complex sp kind w)
      else .error .pycrash
  | .falseLit => .error .pycrash

def checkExprList (ctx : Ctx) : List Expr → Except Err (List Expr)
  | [] => .ok []
  | e :: es =>
    match checkExpr ctx e with
    | .error er => .error er
    | .ok e' =>
      match checkExprList ctx es with
      | .error er => .error er
      | .ok es' => .ok (e' :: es')

/-- The argument loop of `visit_CallExpr`.  An equivalence failure
formats a message with the unbound locals `start`/`end` and so raises
`NameError` rather than logging the fatal. -/
def checkCallArgs (ctx : Ctx) : List Ty → List Expr → Except Err Unit
  | [], _ => .ok ()
  | _ :: _, [] => .error .pycrash
  | pt :: pts, a :: as' =>
    match GetExpressionType ctx.scope a with
    | Option.none => .error .pycrash
    | some at' =>
      match CompareTypesEquiv ctx.scope pt at' with
      | Option.none => .error .pycrash
      | some false => .error .pycrash
      | some true => checkCallArgs ctx pts as'

/-- The element loop of `visit_ComplexExpr`. -/
def checkComplexElems (ctx : Ctx) (innerT : Ty) : List Expr → Except Err Unit
  | [] => .ok ()
  | e :: es =>
    match GetExpressionType ctx.scope e with
    | Option.none => .error .pycrash
    | some et =>
      match CompareTypesEquiv ctx.scope innerT et with
      | Option.none => .error .pycrash
      | some false => .error (.chkFatal 50)
      | some true => checkComplexElems ctx innerT es

end

mutual

/-- Pass-B visit of a statement.  `visit_CompoundStmt` moves the scope
cursor to the attached `BlockTable`, `visit_IfStmt`/`visit_IterStmt`
shadow `last_if`/`last_iter` around their children and then require an
integer/array/function condition type, `visit_BreakStmt` and
`visit_ContinueStmt` resolve labels through `get_labelsym` — a hit would
then call `LabelSymbol.get_node()`, a method the class does not have —
and `visit_ReturnStmt` compares against the recorded return type. -/
def checkStmt (ctx : Ctx) : Stmt → Except Err Stmt
  | .empty => .ok .empty
  | .defS d => do
    let d' ← checkDecl ctx d
    .ok (.defS d')
  | .compound symref stmts =>
    match symref with
    | Option.none => .error .pycrash
    | some fr => do
      let stmts' ← checkStmtList { ctx with scope := fr :: ctx.scope } stmts
      .ok (.compound symref stmts')
  | .exprS e => do
    let e' ← checkExpr ctx e
    .ok (.exprS e')
  | .cont l _ =>
    match l with
    | some lbl =>
      match getLabelsym ctx.scope lbl with
      | Option.none => .error (.chkFatal 70)
      | some _ => .error .pycrash
    | Option.none =>
      match ctx.lastIter with
      | Option.none => .error (.chkFatal 90)
      | some it => .ok (.cont l (some it))
  | .brk b l _ =>
    match l with
    | some lbl =>
      match getLabelsym ctx.scope lbl with
      | Option.none => .error (.chkFatal 70)
      | some _ => .error .pycrash
    | Option.none =>
      match (if b then ctx.lastIf else ctx.lastIter) with
      | Option.none => .error (.chkFatal 90)
      | some last =>
        let kindOk : Bool :=
          if b then (match last with | .ifS _ _ _ _ => true | _ => false)
          else (match last with | .iter _ _ _ _ _ _ => true | _ => false)
        if !kindOk then .error (.chkFatal 90)
        else .ok (.brk b l (some last))
  | .ret e => do
    let e' ←
      match e with
      | some ex => do
        let ex' ← checkExpr ctx ex
        pure (some ex')
      | Option.none => pure Option.none
    if isVoidTy ctx.retType then
      match e' with
      | some _ => .error (.chkFatal 50)
      | Option.none => .ok (.ret Option.none)
    else
      match e' with
      | Option.none => .error (.chkFatal 50)
      | some ex' =>
        match GetExpressionType ctx.scope ex' with
        | Option.none => .error .pycrash
        | some rt =>
          match CompareTypesEquiv ctx.scope ctx.retType rt with
          | Option.none => .error .pycrash
          | some false => .error (.chkFatal 50)
          | some true => .ok (.ret (some ex'))
  | .ifS c bd els lb => do
    let ctx' := { ctx with lastIf := some (.ifS c bd els lb) }
    let c' ← checkExpr ctx' c
    let bd' ← checkStmt ctx' bd
    let els' ←
      match els with
      | some e => do
        let e' ← checkStmt ctx' e
        pure (some e')
      | Option.none => pure Option.none
    match GetExpressionType ctx.scope c' with
    | Option.none => .error .pycrash
    | some ct =>
      if !tyFamily ct then .error (.chkFatal 50)
      else .ok (.ifS c' bd' els' lb)
  | .iter ini c inc bd els lb => do
    let ctx' := { ctx with lastIter := some (.iter ini c inc bd els lb) }
    let ini' ←
      match ini with
      | some e => do
        let e' ← checkExpr ctx' e
        pure (some e')
      | Option.none => pure Option.none
    let c' ←
      match c with
      | some e => do
        let e' ← checkExpr ctx' e
        pure (some e')
      | Option.none => pure Option.none
    let inc' ←
      match inc with
      | some e => do
        let e' ← checkExpr ctx' e
        pure (some e')
      | Option.none => pure Option.none
    let bd' ← checkStmt ctx' bd
    let els' ←
      match els with
      | some e => do
        let e' ← checkStmt ctx' e
        pure (some e')
      | Option.none => pure Option.none
    match c' with
    | Option.none => .error .pycrash
    | some ce =>
      match GetExpressionType ctx.scope ce with
      | Option.none => .error .pycrash
      | some ct =>
        if !tyFamily ct then .error (.chkFatal 50)
        else .ok (.iter ini' (some ce) inc' bd' els' lb)

def checkStmtList (ctx : Ctx) : List Stmt → Except Err (List Stmt)
  | [] => .ok []
  | s :: ss => do
    let s' ← checkStmt ctx s
    let ss' ← checkStmtList ctx ss
    .ok (s' :: ss')

/-- Pass-B visit of a declaration.  `visit_VarDecl` runs `__check_Decl`,
re-visits the (possibly patched) declared type, and runs `__check_Decl`
again; `visit_ConstDecl` additionally requires an integral declared type
and a constant initializer; `visit_FuncDecl` (unguarded in either pass)
skips bodyless prototypes, else records the expanded return type and
moves the scope cursor to the `FuncTable` attached via its symbol. -/
def checkDecl (ctx : Ctx) : Decl → Except Err Decl
  | .varDecl n t v st => do
    let t1 ← if tyIsType t then checkTy ctx t else .error .pycrash
    let v1 ←
      match v with
      | some ve => do
        let ve' ← checkExpr ctx ve
        pure (some ve')
      | Option.none => pure Option.none
    let t2 ← checkDeclInit ctx t1 v1
    let t3 ← if tyIsType t2 then checkTy ctx t2 else .error .pycrash
    let t4 ← checkDeclInit ctx t3 v1
    .ok (.varDecl n t4 v1 st)
  | .constDecl n t v st => do
    let t1 ← if tyIsType t then checkTy ctx t else .error .pycrash
    let v1 ← checkExpr ctx v
    let declType := ExpandType ctx.scope t1
    if !isIntTy declType then .error (.chkFatal 50)
    else
      match propcheck ctx.scope v1 with
      | Option.none => .error .pycrash
      | some p =>
        if !p.const then .error (.chkFatal 50)
        else do
          let t2 ← checkDeclInit ctx t1 (some v1)
          .ok (.constDecl n t2 v1 st)
  | .funcDecl n t pns body st inl symref =>
    match body with
    | Option.none => .ok (.funcDecl n t pns body st inl symref)
    | some bd =>
      match t with
      | .func fv fr fps fvr =>
        match symref with
        | Option.none => .error .pycrash
        | some ftab => do
          let retT := ExpandType ctx.scope fr
          let ctx' := { ctx with scope := ftab :: ctx.scope, retType := retT }
          let t' ← checkTy ctx' (.func fv fr fps fvr)
          let bd' ← checkStmt ctx' bd
          .ok (.funcDecl n t' pns (some bd') st inl symref)
      | _ => .error .pycrash

def checkDeclList (ctx : Ctx) : List Decl → Except Err (List Decl)
  | [] => .ok []
  | d :: ds => do
    let d' ← checkDecl ctx d
    let ds' ← checkDeclList ctx ds
    .ok (d' :: ds')

end

mutual

/-- Pass-A (`typedef_check == True`) visit of a type node.
`visit_VoidType` is unguarded and fatal `{C40}`.  `visit_RefType` in
this pass looks the name up (`{C10}` if absent) and, when the
`typenames` stack is non-empty, descends into the referenced type with
the symbol's own table as scope — that branch is only reachable below a
`TypeDecl`, a declaration form outside this embedding's fragment
(`typenames` stays `[]` everywhere here), so it is left as a crash.
`visit_ArrayType` and `visit_FuncType` clear `typenames` around their
children; both run their full body in either pass. -/
def checkTyA (ctx : Ctx) (tns : List String) : Ty → Except Err Ty
  | .void _ => .error (.chkFatal 40)
  | .ref v n =>
    match getTypesym ctx.scope n with
    | Option.none => .error (.chkFatal 10)
    | some _ =>
      if tns.length > 0 then .error .pycrash
      else .ok (.ref v n)
  | .int v w => .ok (.int v w)
  | .array v inner sz => do
    let inner' ←
      if sz.isSome || !isVoidTy inner then
        if tyIsType inner then checkTyA ctx [] inner else .error .pycrash
      else .ok inner
    match sz with
    | some se => do
      let se' ← checkExprA ctx se
      match propcheck ctx.scope se' with
      | Option.none => .error .pycrash
      | some p =>
        if !p.const then .error (.chkFatal 50)
        else .ok (.array v inner' (some se'))
    | Option.none => .ok (.array v inner' Option.none)
  | .func v ret ps vr => do
    let ret' ←
      if isVoidTy ret then .ok ret
      else if tyIsType ret then checkTyA ctx [] ret else .error .pycrash
    let ps' ← checkTyAList ctx ps
    .ok (.func v ret' ps' vr)
  | .strct v ms => do
    let ms' ← checkMemberAList ctx tns ms
    .ok (.strct v ms')
  | .union v ms => do
    let ms' ← checkMemberAList ctx tns ms
    .ok (.union v ms')
  | .tySym _ _ => .error .pycrash
  | .pyStr _ => .error .pycrash
  | .noneV => .error .pycrash

def checkTyAList (ctx : Ctx) : List Ty → Except Err (List Ty)
  | [] => .ok []
  | t :: ts => do
    let t' ← if tyIsType t then checkTyA ctx [] t else .error .pycrash
    let ts' ← checkTyAList ctx ts
    .ok (t' :: ts')

/-- `visit_MemberData` in pass A: descend into the member's type, then
require an integral (expanded) type under a `bits` width (`{C30}`). -/
def checkMemberAList (ctx : Ctx) (tns : List String) : List Member → Except Err (List Member)
  | [] => .ok []
  | .mk n t b :: ms => do
    let t' ← if tyIsType t then checkTyA ctx tns t else .error .pycrash
    if b.isSome && !isIntTy (ExpandType ctx.scope t) then .error (.chkFatal 30)
    else do
      let ms' ← checkMemberAList ctx tns ms
      .ok (.mk n t' b :: ms')

/-- Pass-A visit of an expression: every expression handler of the
checker returns at once under `typedef_check`, without descending; the
handler-less nodes (`NameExpr`, `IntExpr`, `StrExpr`, `SzexprExpr`,
`SztypeExpr`, `CommaExpr`) descend generically, which reaches type
subnodes of `SztypeExpr`/`IntExpr`. -/
def checkExprA (ctx : Ctx) : Expr → Except Err Expr
  | .name sp s => .ok (.name sp s)
  | .intE sp t v => do
    let t' ← if tyIsType t then checkTyA ctx [] t else .ok t
    .ok (.intE sp t' v)
  | .strE sp u => .ok (.strE sp u)
  | .szexpr sp e => do
    let e' ← checkExprA ctx e
    .ok (.szexpr sp e')
  | .sztype sp t => do
    let t' ← if tyIsType t then checkTyA ctx [] t else .ok t
    .ok (.sztype sp t')
  | .comma sp es => do
    let es' ← checkExprAList ctx es
    .ok (.comma sp es')
  | .falseLit => .error .pycrash
  | e => .ok e

def checkExprAList (ctx : Ctx) : List Expr → Except Err (List Expr)
  | [] => .ok []
  | e :: es => do
    let e' ← checkExprA ctx e
    let es' ← checkExprAList ctx es
    .ok (e' :: es')

/-- Pass-A visit of a statement: the statement handlers (`If`, `Iter`,
`Break`, `Continue`, `Return`) return at once; `visit_CompoundStmt` is
unguarded and descends with the scope cursor moved. -/
def checkStmtA (ctx : Ctx) : Stmt → Except Err Stmt
  | .empty => .ok .empty
  | .defS d => do
    let d' ← checkDeclA ctx d
    .ok (.defS d')
  | .compound symref stmts =>
    match symref with
    | Option.none => .error .pycrash
    | some fr => do
      let stmts' ← checkStmtAList { ctx with scope := fr :: ctx.scope } stmts
      .ok (.compound symref stmts')
  | .exprS e => do
    let e' ← checkExprA ctx e
    .ok (.exprS e')
  | s => .ok s

def checkStmtAList (ctx : Ctx) : List Stmt → Except Err (List Stmt)
  | [] => .ok []
  | s :: ss => do
    let s' ← checkStmtA ctx s
    let ss' ← checkStmtAList ctx ss
    .ok (s' :: ss')

/-- Pass-A visit of a declaration: `visit_VarDecl`/`visit_ConstDecl`
return at once; `visit_FuncDecl` is unguarded, so pass A already walks
function signatures and bodies (reaching the type checks above). -/
def checkDeclA (ctx : Ctx) : Decl → Except Err Decl
  | .varDecl n t v st => .ok (.varDecl n t v st)
  | .constDecl n t v st => .ok (.constDecl n t v st)
  | .funcDecl n t pns body st inl symref =>
    match body with
    | Option.none => .ok (.funcDecl n t pns body st inl symref)
    | some bd =>
      match t with
      | .func fv fr fps fvr =>
        match symref with
        | Option.none => .error .pycrash
        | some ftab => do
          let retT := ExpandType ctx.scope fr
          let ctx' := { ctx with scope := ftab :: ctx.scope, retType := retT }
          let t' ← checkTyA ctx' [] (.func fv fr fps fvr)
          let bd' ← checkStmtA ctx' bd
          .ok (.funcDecl n t' pns (some bd') st inl symref)
      | _ => .error .pycrash

def checkDeclAList (ctx : Ctx) : List Decl → Except Err (List Decl)
  | [] => .ok []
  | d :: ds => do
    let d' ← checkDeclA ctx d
    let ds' ← checkDeclAList ctx ds
    .ok (d' :: ds')

end

/-- `Checker.visit_Module`: walk the module once with
`typedef_check=True` (types only), then once more with it `False`. -/
def checkModule (modTab : Frame) (m : NsModule) : Except Err NsModule := do
  let ctx0 : Ctx :=
    ⟨[modTab], Ty.noneV, Option.none, Option.none⟩
  let declsA ← checkDeclAList ctx0 m.decls
  let declsB ← checkDeclList ctx0 declsA
  .ok ⟨declsB⟩

/-- The per-file pipeline fragment the claims exercise: build the
symbol table (`nsstbuilder.GenerateTable`), then run the semantic
checker over the annotated tree (`nscomp` runs the stages in this
order and stops at the first failed stage). -/
def compileCheck (m : NsModule) : Except Err NsModule := do
  let (tab, m') ← buildModule m
  checkModule tab m'

/-- Modelled from the spec: the configuration constants of
`internals/nstypes.py` (`nstypes.CFG`), a module that the lexer and the
checker import but which is not under `src/`.  Per §6 of the spec it carries
`INT_SIZES: {int → S_i, long → S_l, quad → S_q}` (word counts),
`PTR_SIZE`, and `BITS_PER_WORD`; all lexer theorems quantify over it. -/
structure CFG where
  intSizes : IntWidth → Nat
  ptrSize : Nat
  bitsPerWord : Nat

/-- Python's `str.isspace`/`isdigit`/`isalpha`/`isalnum` are
Unicode-aware; the embedding abstracts them as a classifier record and
quantifies the theorems over it (with hypotheses pinning down the
concrete characters a theorem mentions).  `asciiCC` instantiates the
classifier as Python behaves on the ASCII range. -/
structure CharClass where
  isspace : Char → Bool
  isdigit : Char → Bool
  isalpha : Char → Bool
  isalnum : Char → Bool

def asciiCC : CharClass :=
  ⟨fun c => c == ' ' || c == '\t' || c == '\n' || c == '\r' ||
      c == '\x0b' || c == '\x0c',
   fun c => c.isDigit,
   fun c => c.isAlpha,
   fun c => c.isAlphanum⟩

/-- `nslex.TokenType`. -/
inductive TokType where
  | keyword | name | integer | string | punc | comment | eof
deriving DecidableEq, Repr

/-- The `value` payload of a token: `None` for EOF, a string for
keywords/names/punctuators, `(value, int_type)` for integers, the byte
list for strings, the raw characters for comments. -/
inductive TokVal where
  | none
  | str (s : String)
  | int (v : Nat) (t : IntWidth)
  | bytes (bs : List Nat)
  | chars (cs : List Char)
deriving DecidableEq, Repr

/-- `nslex.Token`. -/
structure Token where
  type : TokType
  value : TokVal
  startPos : Nat × Nat
  endPos : Nat × Nat
deriving DecidableEq, Repr

/-- The lexer's mutable state: `source`, `srcpos`, `curln`, `curcol`,
the `success` flag, and a count of `logger.warn` calls (the source logs
warnings but never reads them back). -/
structure LexState where
  source : List Char
  srcpos : Nat
  curln : Nat
  curcol : Nat
  success : Bool
  warns : Nat
deriving DecidableEq, Repr

/-- `Lexer.__init__`. -/
def LexState.init (src : List Char) : LexState := ⟨src, 0, 1, 0, true, 0⟩

def LexState.remaining (st : LexState) : Nat := st.source.length - st.srcpos

/-- Lexer errors: a fatal diagnostic `{L##}`, an unlogged Python
exception, or exhaustion of the recursion fuel the fueled embedding
threads through the source's `while` loops (the termination theorem
shows the wrapper's fuel is never exhausted). -/
inductive LErr where
  | fatal (code : Nat)
  | pycrash
  | fuelOut
deriving DecidableEq, Repr

/-- `Lexer._peek(num, ahead)` (truncates at EOF; `[]` models `""`). -/
def peek (st : LexState) (num ahead : Nat) : List Char :=
  (st.source.drop (st.srcpos + ahead)).take num

/-- `Lexer._peek()` as a single optional character. -/
def peekC (st : LexState) (ahead : Nat) : Option Char :=
  (st.source.drop (st.srcpos + ahead)).head?

/-- `Lexer._snapshot()`. -/
def snapshot (st : LexState) : Nat × Nat := (st.curln, st.curcol)

/-- One iteration of `Lexer._advance`: bump the column, move to the
next line when the consumed character is a newline, bump `srcpos`. -/
def advance1 (st : LexState) : LexState :=
  if st.srcpos < st.source.length then
    match peekC st 0 with
    | some c =>
      if c == '\n' then
        { st with srcpos := st.srcpos + 1, curln := st.curln + 1, curcol := 0 }
      else
        { st with srcpos := st.srcpos + 1, curcol := st.curcol + 1 }
    | Option.none => st
  else st

/-- `Lexer._advance(num)`: the boolean is `num == 0` at loop exit. -/
def advance (st : LexState) : Nat → (Bool × LexState)
  | 0 => (true, st)
  | Nat.succ n =>
    if st.srcpos < st.source.length then advance (advance1 st) n
    else (false, st)

/-- `Lexer._skipws` (fueled). -/
def skipws (cc : CharClass) : Nat → LexState → Except LErr LexState
  | 0, _ => .error .fuelOut
  | Nat.succ fu, st =>
    match peekC st 0 with
    | some c => if cc.isspace c then skipws cc fu (advance1 st) else .ok st
    | Option.none => .ok st

/-- `"0123456789ABCDEF"`; `chars = ...[0:base]`. -/
def hexDigitsUC : List Char :=
  ['0', '1', '2', '3', '4', '5', '6', '7', '8', '9', 'A', 'B', 'C', 'D', 'E', 'F']

/-- One digit for `int(s, base)` (Python accepts either case). -/
def digitVal (c : Char) : Nat :=
  if c.isDigit then c.toNat - 48 else c.toUpper.toNat - 55

/-- `int(num_string, base=base)` on the scanned digits. -/
def natOfDigits (base : Nat) (cs : List Char) : Nat :=
  cs.foldl (fun a c => a * base + digitVal c) 0

/-- The inner `while self._peek() == "_"` loop of `_readInt`. -/
def scanUnderscores : Nat → (Nat × Nat) → LexState →
    Except LErr ((Nat × Nat) × LexState)
  | 0, _, _ => .error .fuelOut
  | Nat.succ fu, ep, st =>
    match peekC st 0 with
    | some '_' => scanUnderscores fu (snapshot st) (advance1 st)
    | _ => .ok (ep, st)

/-- The digit-scanning loop of `_readInt`: accept characters whose
upper-case form is in `chars`, tracking `end_pos`, and swallow
underscores after each digit. -/
def scanNum (chars : List Char) : Nat → (List Char × Option (Nat × Nat)) →
    LexState → Except LErr ((List Char × Option (Nat × Nat)) × LexState)
  | 0, _, _ => .error .fuelOut
  | Nat.succ fu, (acc, ep), st =>
    match peekC st 0 with
    | some c =>
      if chars.contains c.toUpper then
        match scanUnderscores fu (snapshot st) (advance1 st) with
        | .error e => .error e
        | .ok (ep2, st2) => scanNum chars fu (acc ++ [c], some ep2) st2
      else .ok ((acc, ep), st)
    | Option.none => .ok ((acc, ep), st)

/-- `Lexer._readIntSuffix`: optional `i|l|q` (any case; any other
alphabetic character is the fatal `{L11}`), returning the selected
width, `maximum = 1 << INT_SIZES[t] * BITS_PER_WORD`, and the position
of the consumed suffix if any. -/
def readIntSuffix (cfg : CFG) (cc : CharClass) (st : LexState) :
    Except LErr (IntWidth × Nat × Option (Nat × Nat) × LexState) :=
  let finish : IntWidth → Option (Nat × Nat) → LexState →
      Except LErr (IntWidth × Nat × Option (Nat × Nat) × LexState) :=
    fun t pos st' =>
      .ok (t, 1 <<< (cfg.intSizes t * cfg.bitsPerWord), pos, st')
  match peekC st 0 with
  | some c =>
    if cc.isalpha c then
      let cl := c.toLower
      if cl == 'i' then finish .int (some (snapshot st)) (advance1 st)
      else if cl == 'l' then finish .long (some (snapshot st)) (advance1 st)
      else if cl == 'q' then finish .quad (some (snapshot st)) (advance1 st)
      else .error (.fatal 11)
    else finish .int Option.none st
  | Option.none => finish .int Option.none st

/-- `Lexer._readInt`: optional `0b|0o|0x` prefix (any other letter after
a leading `0` is the fatal `{L10}`), the digit scan, the suffix, the
non-aborting `{L13}` alpha-after-number error (it only clears
`success`), then truncation of the value to `maximum` with two warnings
when it changes the value. -/
def readIntPrefix (cc : CharClass) (st : LexState) :
    Except LErr (Nat × LexState) :=
  match peekC st 0 with
  | some '0' =>
    match peekC st 1 with
    | some p =>
      let pl := p.toLower
      if cc.isalpha pl then
        let stA := advance1 st
        if pl == 'b' then .ok (2, advance1 stA)
        else if pl == 'o' then .ok (8, advance1 stA)
        else if pl == 'x' then .ok (16, advance1 stA)
        else .error (.fatal 10)
      else .ok (10, st)
    | Option.none => .ok (10, st)
  | _ => .ok (10, st)

def readInt (cfg : CFG) (cc : CharClass) (fu : Nat) (st : LexState) :
    Except LErr (Token × LexState) :=
  let startPos := snapshot st
  match readIntPrefix cc st with
  | .error e => .error e
  | .ok (base, st1) =>
    let chars := hexDigitsUC.take base
    match scanNum chars fu ([], Option.none) st1 with
    | .error e => .error e
    | .ok ((numStr, epOpt), st2) =>
      if numStr.length == 0 then .error (.fatal 99)
      else
        match readIntSuffix cfg cc st2 with
        | .error e => .error e
        | .ok (t, maximum, posOpt, st3) =>
          let ep? := match posOpt with
            | some p => some p
            | Option.none => epOpt
          let st4 :=
            match peekC st3 0 with
            | some c =>
              if cc.isalpha c || c == '_' then { st3 with success := false }
              else st3
            | Option.none => st3
          let v := natOfDigits base numStr
          let masked := v &&& (maximum - 1)
          let st5 :=
            if v != masked then { st4 with warns := st4.warns + 2 } else st4
          match ep? with
          | some ep => .ok (⟨.integer, .int masked t, startPos, ep⟩, st5)
          | Option.none => .error .pycrash

/-- `[0-7]`. -/
def isOctalDigit (c : Char) : Bool := '0' ≤ c && c ≤ '7'

/-- `[0-9a-fA-F]`. -/
def isHexChar (c : Char) : Bool :=
  c.isDigit || ('a' ≤ c && c ≤ 'f') || ('A' ≤ c && c ≤ 'F')

/-- `[0-9A-Za-f]` — the quirky character class of the trailing-hex
warning in `_readCharAsInt`. -/
def isWarnHexChar (c : Char) : Bool :=
  c.isDigit || ('A' ≤ c && c ≤ 'Z') || ('a' ≤ c && c ≤ 'f')

/-- Greedy anchored match of at most `n` characters satisfying `p`,
like the regexes `^([0-7]{1,3})` / `([0-9a-fA-F]{1,8})`. -/
def takeWhileMax (p : Char → Bool) : Nat → List Char → List Char
  | 0, _ => []
  | _, [] => []
  | Nat.succ n, c :: cs =>
    if p c then c :: takeWhileMax p n cs else []

/-- `bytes(chr(v), encoding="utf8")`: `none` for the values `chr`/UTF-8
reject (surrogates, > 0x10FFFF), where the source catches `ValueError`
and raises the fatal `{L21}`. -/
def utf8Bytes (v : Nat) : Option (List Nat) :=
  if v < 0x80 then some [v]
  else if v < 0x800 then some [0xC0 + v / 64, 0x80 + v % 64]
  else if v < 0x10000 then
    if 0xD800 ≤ v && v ≤ 0xDFFF then Option.none
    else some [0xE0 + v / 4096, 0x80 + (v / 64) % 64, 0x80 + v % 64]
  else if v ≤ 0x10FFFF then
    some [0xF0 + v / 262144, 0x80 + (v / 4096) % 64,
      0x80 + (v / 64) % 64, 0x80 + v % 64]
  else Option.none

/-- `int.from_bytes(bs, "big")`. -/
def bytesBE (bs : List Nat) : Nat := bs.foldl (fun a b => a * 256 + b) 0

/-- `int.from_bytes(bytes(c, encoding="utf8"), "big")` for an actual
character (always encodable). -/
def utf8BEChar (c : Char) : Nat :=
  match utf8Bytes c.toNat with
  | some bs => bytesBE bs
  | Option.none => 0

/-- `Lexer._readCharAsInt`: one character or escape sequence, returning
its numeric value and the `can_truncate` flag.  Branch order follows the
source: named escapes (including `\0`), then the octal, `\xH{1,8}` and
`\uHHHH` regexes against `large_peek` (ten characters starting *at* the
escape letter, captured before it is consumed), then the eight-digit
form, which — because it is matched against `self._peek(9)` *after* the
escape letter was consumed — actually requires a second `u`
(`\uuHHHHHHHH`) and leaves its last digit unconsumed.  An unknown escape
warns and yields the letter itself with `can_truncate=False`; at end of
input the letter is `""`, nothing matches, and `int.from_bytes(b"")`
silently yields `0`. -/
def escNamed (c : Char) : Option Nat :=
  if c == 'a' then some 7
  else if c == 'b' then some 8
  else if c == 'f' then some 12
  else if c == 'n' then some 10
  else if c == 'r' then some 13
  else if c == 't' then some 9
  else if c == 'v' then some 11
  else if c == '\\' then some 92
  else if c == '\'' then some 39
  else if c == '"' then some 34
  else if c == '0' then some 0
  else Option.none

def escHex (hx : List Char) (stC : LexState) : Except LErr (Nat × Bool × LexState) :=
  let stD := (advance stC (hx.length + 1 - 1)).2
  let stE :=
    match peekC stD 0 with
    | some w => if isWarnHexChar w then { stD with warns := stD.warns + 1 } else stD
    | Option.none => stD
  .ok (natOfDigits 16 hx, true, stE)

def escU (n : Nat) (digits : List Char) (stC : LexState) :
    Except LErr (Nat × Bool × LexState) :=
  let stD := (advance stC (n - 1)).2
  match utf8Bytes (natOfDigits 16 digits) with
  | some bs => .ok (bytesBE bs, false, stD)
  | Option.none => .error (.fatal 21)

def escRest (c : Char) (largePeek : List Char) (stC : LexState) :
    Except LErr (Nat × Bool × LexState) :=
  let oct := takeWhileMax isOctalDigit 3 largePeek
  if oct.length ≥ 1 then
    .ok (natOfDigits 8 oct % 256, true, (advance stC (oct.length - 1)).2)
  else
    let hx :=
      if largePeek.head? == some 'x' then
        takeWhileMax isHexChar 8 (largePeek.drop 1)
      else []
    if hx.length ≥ 1 then escHex hx stC
    else
      let u4 :=
        if largePeek.head? == some 'u' then
          takeWhileMax isHexChar 4 (largePeek.drop 1)
        else []
      if u4.length == 4 then escU 5 u4 stC
      else
        let p9 := peek stC 9 0
        let u8 :=
          if p9.head? == some 'u' then
            takeWhileMax isHexChar 8 (p9.drop 1)
          else []
        if u8.length == 8 then escU 9 u8 stC
        else .ok (utf8BEChar c, false, { stC with warns := stC.warns + 1 })

def readCharAsInt (st : LexState) : Except LErr (Nat × Bool × LexState) :=
  match peekC st 0 with
  | Option.none => .error (.fatal 99)
  | some '\\' =>
    let stB := advance1 st
    match peekC stB 0 with
    | Option.none => .ok (0, false, { stB with warns := stB.warns + 1 })
    | some c =>
      let largePeek := peek stB 10 0
      let stC := advance1 stB
      match escNamed c with
      | some v => .ok (v, true, stC)
      | Option.none => escRest c largePeek stC
  | some c => .ok (utf8BEChar c, false, advance1 st)

/-- The inner `while self._peek() != '"'` loop of `_readString`: read
characters, reject non-escape values above 127 (`{L22}`), and extend the
byte list through `int_to_smallest_bytes` — a helper that computes the
byte length with floating-point logarithms; the embedding abstracts it
as the parameter `i2sb`, whose `none` models the `ValueError` /
`OverflowError` it can raise (e.g. on the value 0 from `\0`). -/
def readStringInner (i2sb : Nat → Option (List Nat)) :
    Nat → List Nat → LexState → Except LErr (List Nat × LexState)
  | 0, _, _ => .error .fuelOut
  | Nat.succ fu, acc, st =>
    match peekC st 0 with
    | some '"' => .ok (acc, st)
    | _ =>
      match readCharAsInt st with
      | .error e => .error e
      | .ok (v, notUnicode, st1) =>
        if notUnicode && v > 127 then .error (.fatal 22)
        else
          match i2sb v with
          | Option.none => .error .pycrash
          | some bs => readStringInner i2sb fu (acc ++ bs) st1

/-- The outer concatenation loop of `_readString`: as long as the next
character is `"`, consume a quoted run and skip whitespace after it. -/
def readStringOuter (cc : CharClass) (i2sb : Nat → Option (List Nat)) :
    Nat → List Nat → (Nat × Nat) → LexState →
    Except LErr (List Nat × (Nat × Nat) × LexState)
  | 0, _, _, _ => .error .fuelOut
  | Nat.succ fu, acc, ep, st =>
    match peekC st 0 with
    | some '"' =>
      match readStringInner i2sb (Nat.succ fu) acc (advance1 st) with
      | .error e => .error e
      | .ok (acc1, st1) =>
        let ep1 := snapshot st1
        let st2 := advance1 st1
        match skipws cc (Nat.succ fu) st2 with
        | .error e => .error e
        | .ok st3 => readStringOuter cc i2sb fu acc1 ep1 st3
    | _ => .ok (acc, ep, st)

/-- `Lexer._readString`: requires an opening quote, loops over adjacent
quoted runs, then appends the null terminator. -/
def readString (cc : CharClass) (i2sb : Nat → Option (List Nat))
    (fu : Nat) (st : LexState) : Except LErr (Token × LexState) :=
  let startPos := snapshot st
  match peekC st 0 with
  | some '"' =>
    match readStringOuter cc i2sb fu [] startPos st with
    | .error e => .error e
    | .ok (acc, ep, st') =>
      .ok (⟨.string, .bytes (acc ++ [0]), startPos, ep⟩, st')
  | _ => .error (.fatal 1)

/-- The `Punctuators` tuple of `nslex`, in source order (including the
duplicated `"%$="` and the `"/%="` entry). -/
def Punctuators : List String :=
  ["(", ")", "\x7b", "\x7d", "[", "]",
   ".", ",", "->", ":", ";",
   "?",
   "as",
   "$",
   "...",
   "szexpr", "sztype",
   "+", "-", "*", "/", "/$", "%", "%$",
   "<<", ">>", ">>$",
   "==", "!=", "<", ">", "<=", ">=", "<$", ">$", "<=$", ">=$",
   "!", "&&", "||",
   "~", "&", "|", "^",
   ":=", "+=", "-=", "*=", "/=", "/%=", "%$=", "%$=", "<<=", ">>=", ">>$=",
   "&=", "|=", "^="]

/-- `list.sort(key=len, reverse=True)` followed by taking the head: the
first of the longest matches in original order (a stable sort keeps the
original order within each length). -/
def pickLongest (ps : List String) : Option String :=
  ps.foldl
    (fun acc p =>
      match acc with
      | Option.none => some p
      | some q => if p.length > q.length then some p else some q)
    Option.none

/-- `Lexer._tryReadPunc`: match every punctuator against the upcoming
text (`punct == self._peek(len(punct))`), pick the longest match, and
consume it. -/
def tryReadPunc (st : LexState) : Option (Token × LexState) :=
  let startPos := snapshot st
  let ms := Punctuators.filter (fun p => p.toList == peek st p.toList.length 0)
  match pickLongest ms with
  | Option.none => Option.none
  | some p =>
    let (_, st1) := advance st (p.toList.length - 1)
    let ep := snapshot st1
    let st2 := advance1 st1
    some (⟨.punc, .str p, startPos, ep⟩, st2)

/-- The `Keywords` tuple of `nslex`. -/
def Keywords : List String :=
  ["set", "let",
   "func",
   "struct", "union",
   "using",
   "static",
   "inline",
   "void", "int", "long", "quad",
   "volatile",
   "if", "else", "for", "while",
   "break", "breakif", "continue"]

/-- The name-scanning loop of `_tryReadKeywordOrName`
(`peek == "_" or peek.isalnum() and peek.isascii()`). -/
def scanName (cc : CharClass) : Nat → (List Char × Option (Nat × Nat)) →
    LexState → Except LErr ((List Char × Option (Nat × Nat)) × LexState)
  | 0, _, _ => .error .fuelOut
  | Nat.succ fu, (acc, ep), st =>
    match peekC st 0 with
    | some c =>
      if c == '_' || (cc.isalnum c && c.toNat ≤ 127) then
        scanName cc fu (acc ++ [c], some (snapshot st)) (advance1 st)
      else .ok ((acc, ep), st)
    | Option.none => .ok ((acc, ep), st)

/-- `Lexer._tryReadKeywordOrName`.  The leading-character guard only
rejects when a character is present; reading an empty name would then
build a token from the unbound local `end_pos` (`pycrash`), which
`next_token` never reaches because it only calls this with input left. -/
def tryReadKeywordOrName (cc : CharClass) (fu : Nat) (st : LexState) :
    Except LErr (Option (Token × LexState)) :=
  let startPos := snapshot st
  let scanFrom : LexState → Except LErr (Option (Token × LexState)) :=
    fun st0 =>
      match scanName cc fu ([], Option.none) st0 with
      | .error e => .error e
      | .ok ((nm, ep), st1) =>
        match ep with
        | Option.none => .error .pycrash
        | some e =>
          let s := String.mk nm
          if Keywords.contains s then
            .ok (some (⟨.keyword, .str s, startPos, e⟩, st1))
          else
            .ok (some (⟨.name, .str s, startPos, e⟩, st1))
  match peekC st 0 with
  | some c =>
    if !(c == '_' || (cc.isalpha c && c.toNat ≤ 127)) then .ok Option.none
    else scanFrom st
  | Option.none => scanFrom st

/-- The comment-body loop of `next_token`: collect characters until
`*/`; note that for the empty comment `/**/` the loop body never runs
and the token construction reads the unbound local `end_pos`
(`UnboundLocalError`, a `pycrash` without any diagnostic); running into
the end of input is the fatal `{L99}`. -/
def commentLoop : Nat → (List Char × Option (Nat × Nat)) → LexState →
    Except LErr ((List Char × (Nat × Nat)) × LexState)
  | 0, _, _ => .error .fuelOut
  | Nat.succ fu, (val, ep), st =>
    if peek st 2 0 == ['*', '/'] then
      match ep with
      | Option.none => .error .pycrash
      | some e =>
        let (_, st2) := advance st 2
        .ok ((val, e), st2)
    else
      let e1 := snapshot st
      let val1 := val ++ (match peekC st 0 with
        | some c => [c]
        | Option.none => [])
      if st.srcpos < st.source.length then
        commentLoop fu (val1, some e1) (advance1 st)
      else .error (.fatal 99)

/-- The character-literal branch of `next_token`: quote, character,
closing quote (`{L20}` if absent), optional suffix, the non-aborting
`{L13}` check, then truncation — fatal `{L12}` when the value does not
fit and came from a non-truncatable escape, two warnings otherwise. -/
def readCharLiteral (cfg : CFG) (cc : CharClass) (st : LexState) :
    Except LErr (Token × LexState) :=
  let startPos := snapshot st
  let st1 := advance1 st
  match readCharAsInt st1 with
  | .error e => .error e
  | .ok (v, canTrunc, st2) =>
    match peekC st2 0 with
    | some '\'' =>
      let ep := snapshot st2
      let st3 := advance1 st2
      match readIntSuffix cfg cc st3 with
      | .error e => .error e
      | .ok (t, maximum, posOpt, st4) =>
        let ep' := match posOpt with
          | some p => p
          | Option.none => ep
        let st5 :=
          match peekC st4 0 with
          | some c =>
            if cc.isalpha c || c == '_' then { st4 with success := false }
            else st4
          | Option.none => st4
        let masked := v &&& (maximum - 1)
        if v != masked then
          if !canTrunc then .error (.fatal 12)
          else
            .ok (⟨.integer, .int masked t, startPos, ep'⟩,
              { st5 with warns := st5.warns + 2 })
        else .ok (⟨.integer, .int masked t, startPos, ep'⟩, st5)
    | _ => .error (.fatal 20)

/-- `Lexer.next_token` (fueled on the whitespace-skipping `continue`).
The branch order is the source's: whitespace, comment, integer,
character literal, string, punctuator, keyword/name, fatal `{L01}`; the
end of input yields the EOF token at the current snapshot. -/
def nextToken (cfg : CFG) (cc : CharClass) (i2sb : Nat → Option (List Nat)) :
    Nat → LexState → Except LErr (Token × LexState)
  | 0, _ => .error .fuelOut
  | Nat.succ fu, st =>
    match peekC st 0 with
    | Option.none => .ok (⟨.eof, .none, snapshot st, snapshot st⟩, st)
    | some c =>
      if cc.isspace c then
        match skipws cc (Nat.succ fu) st with
        | .error e => .error e
        | .ok st1 => nextToken cfg cc i2sb fu st1
      else if peek st 2 0 == ['/', '*'] then
        let (_, stA) := advance st 2
        match commentLoop (Nat.succ fu) ([], Option.none) stA with
        | .error e => .error e
        | .ok ((val, ep), st2) =>
          .ok (⟨.comment, .chars val, (snapshot stA), ep⟩, st2)
      else if cc.isdigit c then readInt cfg cc (Nat.succ fu) st
      else if c == '\'' then readCharLiteral cfg cc st
      else if c == '"' then readString cc i2sb (Nat.succ fu) st
      else
        match tryReadPunc st with
        | some (tok, st1) => .ok (tok, st1)
        | Option.none =>
          match tryReadKeywordOrName cc (Nat.succ fu) st with
          | .error e => .error e
          | .ok (some (tok, st1)) => .ok (tok, st1)
          | .ok Option.none => .error (.fatal 1)

/-- `Lexer.lex_all` (fueled on tokens): collect tokens until EOF. -/
def lexAllF (cfg : CFG) (cc : CharClass) (i2sb : Nat → Option (List Nat)) :
    Nat → LexState → Except LErr (List Token)
  | 0, _ => .error .fuelOut
  | Nat.succ fu, st =>
    match nextToken cfg cc i2sb (st.remaining + 1) st with
    | .error e => .error e
    | .ok (t, st') =>
      if t.type == .eof then .ok [t]
      else
        match lexAllF cfg cc i2sb fu st' with
        | .error e => .error e
        | .ok ts => .ok (t :: ts)

/-- `Lexer(source).lex_all()`: the fuel supplied here is shown (in the
termination theorem) to be always sufficient. -/
def lexAll (cfg : CFG) (cc : CharClass) (i2sb : Nat → Option (List Nat))
    (src : List Char) : Except LErr (List Token) :=
  lexAllF cfg cc i2sb (src.length + 1) (LexState.init src)

/-! ## Claim inputs -/

/-- `int` (non-volatile). -/
def tyInt : Ty := .int false .int

/-- The parsed module of
`func f() -> (void) { outer: while (1) { while (1) { break outer; } } }`
(the nested labeled loop of the claim, wrapped in a function as
statements only occur in bodies; the parser stores the token's
`int_type` string in `IntExpr.type` and labels as plain strings on the
`IterStmt`s). -/
def progLabeledBreak : NsModule := ⟨[
  .funcDecl "f" (.func false (.void false) [] false) [] (some (.compound Option.none [
    .iter Option.none (some (.intE Span.none (.pyStr "int") 1)) Option.none
      (.compound Option.none [
        .iter Option.none (some (.intE Span.none (.pyStr "int") 1)) Option.none
          (.compound Option.none [ .brk false (some "outer") Option.none ])
          Option.none Option.none])
      Option.none (some "outer")]))
    false false Option.none]⟩

/-- A scope defining the type name `A` as `int`, for the `ExpandType` /
`CompareTypesEquiv` claims. -/
def scopeWithA : Scope := [⟨"module", [], [("A", tyInt)], []⟩]

/-- The parsed module of `func f() -> (int) { set c: int := 1; return c; }`. -/
def progLocalConst : NsModule := ⟨[
  .funcDecl "f" (.func false tyInt [] false) [] (some (.compound Option.none [
    .defS (.constDecl "c" tyInt (.intE Span.none (.pyStr "int") 1) false),
    .ret (some (.name Span.none "c"))])) false false Option.none]⟩

/-- The parsed module of `func f() -> (int) { let x: int; x := 1l; return x; }`. -/
def progAssignLong : NsModule := ⟨[
  .funcDecl "f" (.func false tyInt [] false) [] (some (.compound Option.none [
    .defS (.varDecl "x" tyInt Option.none false),
    .exprS (.assign Span.none (.name Span.none "x")
      (.intE Span.none (.pyStr "long") 1) Option.none),
    .ret (some (.name Span.none "x"))])) false false Option.none]⟩

/-- The scope of that function body as the builder leaves it
(block with `x`, parameterless function scope, module with `f`). -/
def scopeAssignLong : Scope :=
  [⟨"block", [("x", .var tyInt false Option.none)], [], []⟩,
   ⟨"func", [], [], []⟩,
   ⟨"module", [("f", .func (.func false tyInt [] false) false false true)], [], []⟩]

/-- The parsed module of `let a: [] int := { 1, 2, 3, 4 };`. -/
def progArrayInit : NsModule := ⟨[
  .varDecl "a" (.array false tyInt Option.none)
    (some (.complex Span.none "array" (.exprs [
      .intE Span.none (.pyStr "int") 1, .intE Span.none (.pyStr "int") 2,
      .intE Span.none (.pyStr "int") 3, .intE Span.none (.pyStr "int") 4]))) false]⟩

/-- A checker context with an array variable `a : [] int` and an integer
variable `x : int` in scope. -/
def ctxArrInt : Ctx := ⟨[⟨"block",
  [("a", .var (.array false tyInt Option.none) false Option.none),
   ("x", .var tyInt false Option.none)], [], []⟩], Ty.noneV, Option.none, Option.none⟩

def spL : Span := ⟨some 1, some 0, some 1, some 0⟩
def spR : Span := ⟨some 1, some 4, some 1, some 4⟩
def spW : Span := ⟨some 1, some 0, some 1, some 4⟩

/-- A concrete configuration used to instantiate the lexer theorems on
concrete inputs. -/
def cfgW : CFG :=
  ⟨fun w => match w with | .int => 1 | .long => 2 | .quad => 4, 2, 16⟩

/-- A concrete `int_to_smallest_bytes` stand-in used to instantiate the
lexer theorems (never reached by the inputs below). -/
def i2sbW : Nat → Option (List Nat) := fun _ => Option.none

/-- The suffix letters accepted by `_readIntSuffix` with the width each
selects. -/
def intSuffixPairs : List (Char × IntWidth) :=
  [('i', .int), ('I', .int), ('l', .long), ('L', .long),
   ('q', .quad), ('Q', .quad)]

/-- A digit run with the underscores the scanner swallows after each
digit: `(c, u)` is the digit `c` followed by `u` underscores. -/
def groupChars : List (Char × Nat) → List Char
  | [] => []
  | (c, u) :: gs => c :: (List.replicate u '_' ++ groupChars gs)

/-- The base-prefix letters of `_readInt` with the base each selects. -/
def prefixPairs : List (Char × Nat) :=
  [('b', 2), ('B', 2), ('o', 8), ('O', 8), ('x', 16), ('X', 16)]

set_option maxHeartbeats 2000000 in
/-- `visit_*Expr` handlers never change the four span fields of the node
they return. -/
theorem checkExpr_exprSpan (ctx : Ctx) (e e' : Expr) (h : checkExpr ctx e = .ok e') :
    exprSpan e' = exprSpan e := by
  cases e <;>
    unfold checkExpr at h <;>
    (repeat' split at h) <;>
    (try cases h) <;>
    rfl

theorem checkExpr_binary_inv (ctx : Ctx) (sp : Span) (l : Expr) (op : BinOp) (r : Expr)
    (res : Expr) (h : checkExpr ctx (.binary sp l op r) = .ok res) :
    ∃ l' r' lt rt b,
      checkExpr ctx l = .ok l' ∧ checkExpr ctx r = .ok r' ∧
      GetExpressionType ctx.scope l' = some lt ∧
      GetExpressionType ctx.scope r' = some rt ∧
      CompareTypesEquiv ctx.scope lt rt = some b ∧
      exprSpan r' = exprSpan r ∧
      res = .binary sp l' op (if b then r' else .cast (exprSpan r) r' lt false) := by
  unfold checkExpr at h
  rcases hl : checkExpr ctx l with el | l' <;> rw [hl] at h <;> (try dsimp only at h)
  · exact absurd h (by simp)
  rcases hr : checkExpr ctx r with er | r' <;> rw [hr] at h <;> (try dsimp only at h)
  · exact absurd h (by simp)
  rcases hlt : GetExpressionType ctx.scope l' with _ | lt <;> rw [hlt] at h <;> (try dsimp only at h)
  · exact absurd h (by simp)
  rcases hrt : GetExpressionType ctx.scope r' with _ | rt <;> rw [hrt] at h <;> (try dsimp only at h)
  · exact absurd h (by simp)
  rcases hfl : tyFamily lt with _ | _ <;> rw [hfl] at h <;> (try dsimp only at h)
  case false => exact absurd h (by simp)
  rcases hfr : tyFamily rt with _ | _ <;> rw [hfr] at h <;> (try dsimp only at h)
  case false => exact absurd h (by simp)
  rcases hcc : CanCastTypes ctx.scope rt lt with _ | b0 <;> rw [hcc] at h <;> (try dsimp only at h)
  · exact absurd h (by simp)
  cases b0
  · exact absurd h (by simp)
  rcases hop : ((isArrFuncTy lt || isArrFuncTy rt) &&
      !(op == BinOp.add || op == BinOp.sub)) with _ | _ <;> rw [hop] at h <;> (try dsimp only at h)
  case true => exact absurd h (by simp)
  rcases heq : CompareTypesEquiv ctx.scope lt rt with _ | b <;> rw [heq] at h <;> (try dsimp only at h)
  · exact absurd h (by simp)
  cases b
  · cases h
    exact ⟨l', r', lt, rt, false, rfl, rfl, hlt, hrt, heq,
      checkExpr_exprSpan ctx r r' hr,
      by rw [checkExpr_exprSpan ctx r r' hr]; rfl⟩
  · cases h
    exact ⟨l', r', lt, rt, true, rfl, rfl, hlt, hrt, heq,
      checkExpr_exprSpan ctx r r' hr, rfl⟩

theorem checkExpr_binaryCond_inv (ctx : Ctx) (sp : Span) (l : Expr) (op : BinCOp) (r : Expr)
    (res : Expr) (h : checkExpr ctx (.binaryCond sp l op r) = .ok res) :
    ∃ l' r' lt rt b,
      checkExpr ctx l = .ok l' ∧ checkExpr ctx r = .ok r' ∧
      GetExpressionType ctx.scope l' = some lt ∧
      GetExpressionType ctx.scope r' = some rt ∧
      CompareTypesEquiv ctx.scope lt rt = some b ∧
      exprSpan r' = exprSpan r ∧
      res = .binaryCond sp l' op (if b then r' else .cast (exprSpan r) r' lt false) := by
  unfold checkExpr at h
  rcases hl : checkExpr ctx l with el | l' <;> rw [hl] at h <;> (try dsimp only at h)
  · exact absurd h (by simp)
  rcases hr : checkExpr ctx r with er | r' <;> rw [hr] at h <;> (try dsimp only at h)
  · exact absurd h (by simp)
  rcases hlt : GetExpressionType ctx.scope l' with _ | lt <;> rw [hlt] at h <;> (try dsimp only at h)
  · exact absurd h (by simp)
  rcases hrt : GetExpressionType ctx.scope r' with _ | rt <;> rw [hrt] at h <;> (try dsimp only at h)
  · exact absurd h (by simp)
  rcases hfl : tyFamily lt with _ | _ <;> rw [hfl] at h <;> (try dsimp only at h)
  case false => exact absurd h (by simp)
  rcases hfr : tyFamily rt with _ | _ <;> rw [hfr] at h <;> (try dsimp only at h)
  case false => exact absurd h (by simp)
  rcases hcc : CanCastTypes ctx.scope rt lt with _ | b0 <;> rw [hcc] at h <;> (try dsimp only at h)
  · exact absurd h (by simp)
  cases b0
  · exact absurd h (by simp)
  rcases hop : ((isArrFuncTy lt || isArrFuncTy rt) &&
      !(op == BinCOp.logicalAnd || op == BinCOp.logicalOr ||
        op == BinCOp.eq || op == BinCOp.notEq)) with _ | _ <;>
    rw [hop] at h <;> (try dsimp only at h)
  case true => exact absurd h (by simp)
  rcases heq : CompareTypesEquiv ctx.scope lt rt with _ | b <;> rw [heq] at h <;> (try dsimp only at h)
  · exact absurd h (by simp)
  cases b
  · cases h
    exact ⟨l', r', lt, rt, false, rfl, rfl, hlt, hrt, heq,
      checkExpr_exprSpan ctx r r' hr,
      by rw [checkExpr_exprSpan ctx r r' hr]; rfl⟩
  · cases h
    exact ⟨l', r', lt, rt, true, rfl, rfl, hlt, hrt, heq,
      checkExpr_exprSpan ctx r r' hr, rfl⟩

/-! ## Lexer state arithmetic -/

theorem peekC_zero (st : LexState) : peekC st 0 = (st.source.drop st.srcpos).head? := rfl

theorem peekC_isSome (st : LexState) (c : Char) (h : peekC st 0 = some c) :
    0 < st.remaining := by
  rw [peekC_zero] at h
  unfold LexState.remaining
  by_contra hc
  have hdrop : st.source.drop st.srcpos = [] := List.drop_eq_nil_of_le (by omega)
  rw [hdrop] at h
  cases h

theorem peekC_none_drop (st : LexState) (h : peekC st 0 = Option.none) :
    st.source.drop st.srcpos = [] := by
  rw [peekC_zero] at h
  exact List.head?_eq_none_iff.mp h

theorem advance1_source (st : LexState) : (advance1 st).source = st.source := by
  unfold advance1
  repeat' split
  all_goals rfl

theorem advance1_remaining (st : LexState) :
    (advance1 st).remaining = st.remaining - 1 := by
  unfold LexState.remaining advance1
  split
  case isTrue hlt =>
    split
    case h_1 c heq =>
      split <;> (simp only []; omega)
    case h_2 heq =>
      exfalso
      have := peekC_none_drop st heq
      have : st.source.length - st.srcpos = 0 := by
        rw [← List.length_drop, this]
        rfl
      omega
  case isFalse hge =>
    omega

theorem advance1_success (st : LexState) : (advance1 st).success = st.success := by
  unfold advance1
  repeat' split
  all_goals rfl

theorem advance1_warns (st : LexState) : (advance1 st).warns = st.warns := by
  unfold advance1
  repeat' split
  all_goals rfl

theorem advance_source (st : LexState) (n : Nat) :
    ((advance st n).2).source = st.source := by
  induction n generalizing st with
  | zero => rfl
  | succ m ih =>
    unfold advance
    split
    · rw [ih (advance1 st), advance1_source]
    · rfl

theorem advance_remaining_le (st : LexState) (n : Nat) :
    ((advance st n).2).remaining ≤ st.remaining := by
  induction n generalizing st with
  | zero => exact Nat.le_refl _
  | succ m ih =>
    unfold advance
    split
    · calc ((advance (advance1 st) m).2).remaining
          ≤ (advance1 st).remaining := ih (advance1 st)
        _ ≤ st.remaining := by rw [advance1_remaining]; omega
    · exact Nat.le_refl _

/-! ## Fueled-loop lemmas: each loop consumes input, so fuel exceeding the
remaining input never runs out, and the output state never has more input
than the input state. -/

theorem skipws_le (cc : CharClass) (fu : Nat) (st st' : LexState)
    (h : skipws cc fu st = .ok st') : st'.remaining ≤ st.remaining := by
  induction fu generalizing st with
  | zero => cases h
  | succ fu ih =>
    unfold skipws at h
    split at h
    case h_1 c heq =>
      split at h
      · calc st'.remaining ≤ (advance1 st).remaining := ih (advance1 st) h
          _ ≤ st.remaining := by rw [advance1_remaining]; omega
      · cases h; exact Nat.le_refl _
    case h_2 heq => cases h; exact Nat.le_refl _

theorem skipws_not_fuelOut (cc : CharClass) (fu : Nat) (st : LexState)
    (hfu : st.remaining < fu) : skipws cc fu st ≠ .error .fuelOut := by
  induction fu generalizing st with
  | zero => omega
  | succ fu ih =>
    unfold skipws
    split
    case h_1 c heq =>
      split
      · apply ih
        have := peekC_isSome st c heq
        rw [advance1_remaining]
        omega
      · intro hc; cases hc
    case h_2 heq => intro hc; cases hc

theorem scanUnderscores_le (fu : Nat) (ep : Nat × Nat) (st : LexState)
    (ep' : Nat × Nat) (st' : LexState)
    (h : scanUnderscores fu ep st = .ok (ep', st')) :
    st'.remaining ≤ st.remaining := by
  induction fu generalizing ep st with
  | zero => cases h
  | succ fu ih =>
    unfold scanUnderscores at h
    split at h
    · calc st'.remaining ≤ (advance1 st).remaining := ih _ (advance1 st) h
        _ ≤ st.remaining := by rw [advance1_remaining]; omega
    · cases h; exact Nat.le_refl _

theorem scanUnderscores_not_fuelOut (fu : Nat) (ep : Nat × Nat) (st : LexState)
    (hfu : st.remaining < fu) : scanUnderscores fu ep st ≠ .error .fuelOut := by
  induction fu generalizing ep st with
  | zero => omega
  | succ fu ih =>
    unfold scanUnderscores
    split
    case h_1 heq =>
      apply ih
      have := peekC_isSome st '_' heq
      rw [advance1_remaining]
      omega
    case h_2 => intro hc; cases hc

theorem scanUnderscores_error (fu : Nat) (ep : Nat × Nat) (st : LexState)
    (e : LErr) (h : scanUnderscores fu ep st = .error e) : e = .fuelOut := by
  induction fu generalizing ep st with
  | zero => cases h; rfl
  | succ fu ih =>
    unfold scanUnderscores at h
    split at h
    · exact ih _ _ h
    · cases h

theorem scanNum_grow (chars : List Char) (fu : Nat) (acc : List Char)
    (ep : Option (Nat × Nat)) (st : LexState) (acc' : List Char)
    (ep' : Option (Nat × Nat)) (st' : LexState)
    (h : scanNum chars fu (acc, ep) st = .ok ((acc', ep'), st')) :
    st'.remaining ≤ st.remaining ∧
      (acc' = acc ∧ ep' = ep ∧ st' = st ∨
        acc.length < acc'.length ∧ st'.remaining < st.remaining ∧
          ∃ p, ep' = some p) := by
  induction fu generalizing acc ep st with
  | zero => cases h
  | succ fu ih =>
    unfold scanNum at h
    split at h
    case h_1 c heq =>
      split at h
      · split at h
        case h_1 e heq2 => cases h
        case h_2 ep2 st2 heq2 =>
          have hrem1 : st2.remaining ≤ st.remaining - 1 := by
            have := scanUnderscores_le fu _ (advance1 st) ep2 st2 heq2
            rw [advance1_remaining] at this
            exact this
          have hpos := peekC_isSome st c heq
          rcases ih (acc ++ [c]) (some ep2) st2 h with ⟨hle, hcase⟩
          constructor
          · omega
          · right
            rcases hcase with ⟨ha, he, hs⟩ | ⟨ha, hs, p, he⟩
            · refine ⟨by rw [ha]; simp, by rw [hs]; omega, ?_⟩
              rw [he]
              exact ⟨ep2, rfl⟩
            · refine ⟨by simp at ha; omega, by omega, p, he⟩
      · cases h
        exact ⟨Nat.le_refl _, Or.inl ⟨rfl, rfl, rfl⟩⟩
    case h_2 heq =>
      cases h
      exact ⟨Nat.le_refl _, Or.inl ⟨rfl, rfl, rfl⟩⟩

theorem scanNum_not_fuelOut (chars : List Char) (fu : Nat) (acc : List Char)
    (ep : Option (Nat × Nat)) (st : LexState) (hfu : st.remaining < fu) :
    scanNum chars fu (acc, ep) st ≠ .error .fuelOut := by
  induction fu generalizing acc ep st with
  | zero => omega
  | succ fu ih =>
    unfold scanNum
    split
    case h_1 c heq =>
      split
      · have hpos := peekC_isSome st c heq
        split
        case h_1 e heq2 =>
          intro hc
          injection hc with hc
          subst hc
          exact scanUnderscores_not_fuelOut fu _ (advance1 st)
            (by rw [advance1_remaining]; omega) heq2
        case h_2 ep2 st2 heq2 =>
          apply ih
          have := scanUnderscores_le fu _ (advance1 st) ep2 st2 heq2
          rw [advance1_remaining] at this
          omega
      · intro hc; cases hc
    case h_2 heq => intro hc; cases hc

theorem scanName_grow (cc : CharClass) (fu : Nat) (acc : List Char)
    (ep : Option (Nat × Nat)) (st : LexState) (acc' : List Char)
    (ep' : Option (Nat × Nat)) (st' : LexState)
    (h : scanName cc fu (acc, ep) st = .ok ((acc', ep'), st')) :
    st'.remaining ≤ st.remaining ∧
      (ep' = ep ∧ st' = st ∨ st'.remaining < st.remaining) := by
  induction fu generalizing acc ep st with
  | zero => cases h
  | succ fu ih =>
    unfold scanName at h
    split at h
    case h_1 c heq =>
      split at h
      · have hpos := peekC_isSome st c heq
        rcases ih (acc ++ [c]) (some (snapshot st)) (advance1 st) h with ⟨hle, _⟩
        rw [advance1_remaining] at hle
        exact ⟨by omega, Or.inr (by omega)⟩
      · cases h; exact ⟨Nat.le_refl _, Or.inl ⟨rfl, rfl⟩⟩
    case h_2 heq =>
      cases h; exact ⟨Nat.le_refl _, Or.inl ⟨rfl, rfl⟩⟩

theorem scanName_not_fuelOut (cc : CharClass) (fu : Nat) (acc : List Char)
    (ep : Option (Nat × Nat)) (st : LexState) (hfu : st.remaining < fu) :
    scanName cc fu (acc, ep) st ≠ .error .fuelOut := by
  induction fu generalizing acc ep st with
  | zero => omega
  | succ fu ih =>
    unfold scanName
    split
    case h_1 c heq =>
      split
      · apply ih
        have := peekC_isSome st c heq
        rw [advance1_remaining]
        omega
      · intro hc; cases hc
    case h_2 heq => intro hc; cases hc

theorem commentLoop_le (fu : Nat) (vp : List Char × Option (Nat × Nat))
    (st : LexState) (r : List Char × (Nat × Nat)) (st' : LexState)
    (h : commentLoop fu vp st = .ok (r, st')) :
    st'.remaining ≤ st.remaining := by
  induction fu generalizing vp st with
  | zero => cases h
  | succ fu ih =>
    unfold commentLoop at h
    dsimp only at h
    split at h
    · split at h
      · cases h
      · cases h
        exact advance_remaining_le st 2
    · split at h
      · calc st'.remaining ≤ (advance1 st).remaining := ih _ (advance1 st) h
          _ ≤ st.remaining := by rw [advance1_remaining]; omega
      · cases h

theorem commentLoop_not_fuelOut (fu : Nat)
    (vp : List Char × Option (Nat × Nat)) (st : LexState)
    (hfu : st.remaining < fu) : commentLoop fu vp st ≠ .error .fuelOut := by
  induction fu generalizing vp st with
  | zero => omega
  | succ fu ih =>
    intro h
    unfold commentLoop at h
    dsimp only at h
    split at h
    · split at h
      · cases h
      · cases h
    · split at h
      case isTrue hlt =>
        refine ih _ (advance1 st) ?_ h
        rw [advance1_remaining]
        unfold LexState.remaining at hfu ⊢
        omega
      · cases h

theorem readIntSuffix_le (cfg : CFG) (cc : CharClass) (st : LexState)
    (t : IntWidth) (m : Nat) (p : Option (Nat × Nat)) (st' : LexState)
    (h : readIntSuffix cfg cc st = .ok (t, m, p, st')) :
    st'.remaining ≤ st.remaining := by
  unfold readIntSuffix at h
  dsimp only at h
  repeat' split at h
  all_goals (try cases h)
  all_goals (try exact Nat.le_refl _)
  all_goals (rw [advance1_remaining]; omega)

theorem remaining_warns (y : LexState) (w : Nat) :
    ({ y with warns := w } : LexState).remaining = y.remaining := rfl

theorem remaining_success (y : LexState) (b : Bool) :
    ({ y with success := b } : LexState).remaining = y.remaining := rfl

set_option maxRecDepth 4000 in
theorem escRest_le (c : Char) (largePeek : List Char) (stC : LexState)
    (v : Nat) (b : Bool) (st' : LexState)
    (h : escRest c largePeek stC = .ok (v, b, st')) :
    st'.remaining ≤ stC.remaining := by
  unfold escRest escHex escU at h
  dsimp only at h
  repeat' split at h
  all_goals (try cases h)
  all_goals
    (repeat' split) <;>
    (first
      | (rw [remaining_warns]; exact advance_remaining_le _ _)
      | exact advance_remaining_le _ _
      | (rw [remaining_warns]; exact Nat.le_refl _)
      | exact Nat.le_refl _)

theorem readCharAsInt_lt (st : LexState) (v : Nat) (b : Bool) (st' : LexState)
    (h : readCharAsInt st = .ok (v, b, st')) :
    st'.remaining < st.remaining := by
  unfold readCharAsInt at h
  dsimp only at h
  split at h
  next => cases h
  next =>
    have hp : 0 < st.remaining := peekC_isSome st '\\' (by assumption)
    split at h
    next heq2 =>
      cases h
      rw [remaining_warns, advance1_remaining]
      omega
    next c heq2 =>
      split at h
      next v2 heq3 =>
        cases h
        rw [advance1_remaining, advance1_remaining]
        omega
      next heq3 =>
        have := escRest_le _ _ _ _ _ _ h
        rw [advance1_remaining, advance1_remaining] at this
        omega
  next c hne heq =>
    have hp : 0 < st.remaining := peekC_isSome st c heq
    cases h
    rw [advance1_remaining]
    omega

set_option maxRecDepth 4000 in
theorem readCharAsInt_not_fuelOut (st : LexState) :
    readCharAsInt st ≠ .error .fuelOut := by
  intro h
  unfold readCharAsInt escRest escHex escU at h
  dsimp only at h
  repeat' split at h
  all_goals cases h

theorem readStringInner_le (i2sb : Nat → Option (List Nat)) (fu : Nat)
    (acc : List Nat) (st : LexState) (acc' : List Nat) (st' : LexState)
    (h : readStringInner i2sb fu acc st = .ok (acc', st')) :
    st'.remaining ≤ st.remaining := by
  induction fu generalizing acc st with
  | zero => cases h
  | succ fu ih =>
    unfold readStringInner at h
    split at h
    · cases h; exact Nat.le_refl _
    · split at h
      · cases h
      next v nU st1 heq =>
        split at h
        · cases h
        · split at h
          · cases h
          · have h1 := readCharAsInt_lt st v nU st1 heq
            have h2 := ih _ st1 h
            omega

theorem readStringInner_not_fuelOut (i2sb : Nat → Option (List Nat))
    (fu : Nat) (acc : List Nat) (st : LexState) (hfu : st.remaining < fu) :
    readStringInner i2sb fu acc st ≠ .error .fuelOut := by
  induction fu generalizing acc st with
  | zero => omega
  | succ fu ih =>
    intro h
    unfold readStringInner at h
    split at h
    · cases h
    · split at h
      next e heq =>
        injection h with h
        subst h
        exact readCharAsInt_not_fuelOut st heq
      next v nU st1 heq =>
        split at h
        · cases h
        · split at h
          · cases h
          · have h1 := readCharAsInt_lt st v nU st1 heq
            exact ih _ st1 (by omega) h

theorem readStringOuter_le (cc : CharClass) (i2sb : Nat → Option (List Nat))
    (fu : Nat) (acc : List Nat) (ep : Nat × Nat) (st : LexState)
    (acc' : List Nat) (ep' : Nat × Nat) (st' : LexState)
    (h : readStringOuter cc i2sb fu acc ep st = .ok (acc', ep', st')) :
    st'.remaining ≤ st.remaining := by
  induction fu generalizing acc ep st with
  | zero => cases h
  | succ fu ih =>
    unfold readStringOuter at h
    dsimp only at h
    split at h
    next heq =>
      split at h
      · cases h
      next acc1 st1 heq1 =>
        split at h
        · cases h
        next st3 heq3 =>
          have hq : 0 < st.remaining := peekC_isSome st '"' heq
          have h1 := readStringInner_le i2sb _ _ _ _ _ heq1
          rw [advance1_remaining] at h1
          have h3 := skipws_le cc _ (advance1 st1) st3 heq3
          rw [advance1_remaining] at h3
          have h4 := ih _ _ st3 h
          omega
    · cases h; exact Nat.le_refl _

theorem readStringOuter_not_fuelOut (cc : CharClass)
    (i2sb : Nat → Option (List Nat)) (fu : Nat) (acc : List Nat)
    (ep : Nat × Nat) (st : LexState) (hfu : st.remaining < fu) :
    readStringOuter cc i2sb fu acc ep st ≠ .error .fuelOut := by
  induction fu generalizing acc ep st with
  | zero => omega
  | succ fu ih =>
    intro h
    unfold readStringOuter at h
    dsimp only at h
    split at h
    next heq =>
      have hq : 0 < st.remaining := peekC_isSome st '"' heq
      split at h
      next e heq1 =>
        injection h with h
        subst h
        apply readStringInner_not_fuelOut i2sb (Nat.succ fu) acc (advance1 st) _ heq1
        rw [advance1_remaining]
        omega
      next acc1 st1 heq1 =>
        split at h
        next e heq3 =>
          injection h with h
          subst h
          have h1 := readStringInner_le i2sb _ _ _ _ _ heq1
          rw [advance1_remaining] at h1
          apply skipws_not_fuelOut cc _ (advance1 st1) _ heq3
          rw [advance1_remaining]
          omega
        next st3 heq3 =>
          have h1 := readStringInner_le i2sb _ _ _ _ _ heq1
          rw [advance1_remaining] at h1
          have h3 := skipws_le cc _ (advance1 st1) st3 heq3
          rw [advance1_remaining] at h3
          exact ih _ _ st3 (by omega) h
    · cases h

theorem readIntSuffix_not_fuelOut (cfg : CFG) (cc : CharClass) (st : LexState) :
    readIntSuffix cfg cc st ≠ .error .fuelOut := by
  intro h
  unfold readIntSuffix at h
  dsimp only at h
  repeat' split at h
  all_goals (first | cases h | (injection h with h; cases h))

set_option maxRecDepth 8000 in
theorem readInt_not_fuelOut (cfg : CFG) (cc : CharClass) (fu : Nat)
    (st : LexState) (hfu : st.remaining < fu) :
    readInt cfg cc fu st ≠ .error .fuelOut := by
  intro h
  unfold readInt at h
  dsimp only at h
  split at h
  next e heqp =>
    -- the prefix computation only fails with the fatal {L10}
    injection h with h
    subst h
    unfold readIntPrefix at heqp
    dsimp only at heqp
    repeat' split at heqp
    all_goals (first | cases heqp | (injection heqp with heqp; cases heqp))
  next base st1 heqp =>
    have h1 : st1.remaining ≤ st.remaining := by
      unfold readIntPrefix at heqp
      dsimp only at heqp
      repeat' split at heqp
      all_goals (cases heqp)
      all_goals
        (first
          | exact Nat.le_refl _
          | (rw [advance1_remaining, advance1_remaining]; omega))
    split at h
    next e heqs =>
      injection h with h
      subst h
      exact scanNum_not_fuelOut _ fu _ _ st1 (by omega) heqs
    next numStr epOpt st2 heqs =>
      split at h
      · cases h
      · split at h
        next e heqsf =>
          injection h with h
          subst h
          exact readIntSuffix_not_fuelOut cfg cc st2 heqsf
        next t maximum posOpt st3 heqsf =>
          repeat' split at h
          all_goals (first | cases h | (injection h with h; cases h))

set_option maxRecDepth 8000 in
theorem readInt_progress (cfg : CFG) (cc : CharClass) (fu : Nat)
    (st : LexState) (tok : Token) (st' : LexState)
    (h : readInt cfg cc fu st = .ok (tok, st')) (hp : 0 < st.remaining) :
    st'.remaining < st.remaining ∧ tok.type = .integer := by
  unfold readInt at h
  dsimp only at h
  split at h
  next e heqp => cases h
  next base st1 heqp =>
    have h1 : st1.remaining < st.remaining ∨ st1 = st := by
      unfold readIntPrefix at heqp
      dsimp only at heqp
      repeat' split at heqp
      all_goals (cases heqp)
      all_goals
        (first
          | exact Or.inr rfl
          | (left; rw [advance1_remaining, advance1_remaining]; omega))
    split at h
    next e heqs => cases h
    next numStr epOpt st2 heqs =>
      have h2 := scanNum_grow _ fu [] Option.none st1 numStr epOpt st2 heqs
      split at h
      next hlen => cases h
      next hlen =>
        have hne : numStr ≠ [] := by
          intro hc
          rw [hc] at hlen
          exact hlen rfl
        have h2s : st2.remaining < st.remaining := by
          rcases h1 with h1 | h1
          · rcases h2 with ⟨h2le, _⟩
            omega
          · rcases h2 with ⟨_, ⟨ha, _, _⟩ | ⟨_, hlt, _⟩⟩
            · exact absurd ha hne
            · rw [h1] at hlt
              exact hlt
        split at h
        next e heqsf => cases h
        next t maximum posOpt st3 heqsf =>
          have h3 := readIntSuffix_le cfg cc st2 t maximum posOpt st3 heqsf
          repeat' split at h
          all_goals (try cases h)
          all_goals
            (refine ⟨?_, rfl⟩)
          all_goals
            (simp only [LexState.remaining] at h1 h2s h3 ⊢)
          all_goals omega

theorem readCharLiteral_not_fuelOut (cfg : CFG) (cc : CharClass)
    (st : LexState) : readCharLiteral cfg cc st ≠ .error .fuelOut := by
  intro h
  unfold readCharLiteral at h
  dsimp only at h
  split at h
  next e heq =>
    injection h with h
    subst h
    exact readCharAsInt_not_fuelOut _ heq
  next v canTrunc st2 heq =>
    split at h
    next heq2 =>
      split at h
      next e heqs =>
        injection h with h
        subst h
        exact readIntSuffix_not_fuelOut cfg cc _ heqs
      next t maximum posOpt st4 heqs =>
        repeat' split at h
        all_goals (first | cases h | (injection h with h; cases h))
    next => cases h

theorem readCharLiteral_progress (cfg : CFG) (cc : CharClass) (st : LexState)
    (tok : Token) (st' : LexState)
    (h : readCharLiteral cfg cc st = .ok (tok, st')) (hp : 0 < st.remaining) :
    st'.remaining < st.remaining ∧ tok.type = .integer := by
  unfold readCharLiteral at h
  dsimp only at h
  split at h
  next e heq => cases h
  next v canTrunc st2 heq =>
    have h1 := readCharAsInt_lt (advance1 st) v canTrunc st2 heq
    rw [advance1_remaining] at h1
    split at h
    next heq2 =>
      split at h
      next e heqs => cases h
      next t maximum posOpt st4 heqs =>
        have h2 := readIntSuffix_le cfg cc _ t maximum posOpt st4 heqs
        rw [advance1_remaining] at h2
        repeat' split at h
        all_goals (try cases h)
        all_goals (refine ⟨?_, rfl⟩)
        all_goals (simp only [LexState.remaining] at h1 h2 ⊢)
        all_goals omega
    next => cases h

theorem readString_not_fuelOut (cc : CharClass) (i2sb : Nat → Option (List Nat))
    (fu : Nat) (st : LexState) (hfu : st.remaining < fu) :
    readString cc i2sb fu st ≠ .error .fuelOut := by
  intro h
  unfold readString at h
  dsimp only at h
  split at h
  next heq =>
    split at h
    next e heqo =>
      injection h with h
      subst h
      exact readStringOuter_not_fuelOut cc i2sb fu [] _ st hfu heqo
    next => cases h
  next => cases h

theorem readString_progress (cc : CharClass) (i2sb : Nat → Option (List Nat))
    (fu : Nat) (st : LexState) (tok : Token) (st' : LexState)
    (h : readString cc i2sb fu st = .ok (tok, st')) :
    st'.remaining < st.remaining ∧ tok.type = .string := by
  unfold readString at h
  dsimp only at h
  split at h
  next heq =>
    have hq : 0 < st.remaining := peekC_isSome st '"' heq
    split at h
    next e heqo => cases h
    next acc ep stO heqo =>
      cases h
      refine ⟨?_, rfl⟩
      -- the outer loop certainly entered its quote branch once
      rcases fu with _ | fu
      · cases heqo
      · unfold readStringOuter at heqo
        rw [heq] at heqo
        split at heqo
        next =>
          split at heqo
          next e heq1 => cases heqo
          next acc1 st1 heq1 =>
            have h1 := readStringInner_le i2sb _ _ _ _ _ heq1
            rw [advance1_remaining] at h1
            dsimp only at heqo
            split at heqo
            next e heq3 => cases heqo
            next st3 heq3 =>
              have h3 := skipws_le cc _ (advance1 st1) st3 heq3
              rw [advance1_remaining] at h3
              have h4 := readStringOuter_le cc i2sb fu _ _ st3 _ _ _ heqo
              omega
        next hne => exact absurd rfl hne
  next => cases h

theorem tryReadPunc_progress (st : LexState) (tok : Token) (st2 : LexState)
    (h : tryReadPunc st = some (tok, st2)) (hp : 0 < st.remaining) :
    st2.remaining < st.remaining ∧ tok.type = .punc := by
  unfold tryReadPunc at h
  dsimp only at h
  split at h
  · cases h
  next p heq =>
    cases h
    refine ⟨?_, rfl⟩
    have hle := advance_remaining_le st (p.toList.length - 1)
    rw [advance1_remaining]
    omega

theorem tryReadKeywordOrName_not_fuelOut (cc : CharClass) (fu : Nat)
    (st : LexState) (hfu : st.remaining < fu) :
    tryReadKeywordOrName cc fu st ≠ .error .fuelOut := by
  intro h
  unfold tryReadKeywordOrName at h
  dsimp only at h
  repeat' split at h
  all_goals (try (cases h ; done))
  all_goals (injection h with h ; subst h)
  all_goals (exact scanName_not_fuelOut cc fu _ _ st hfu (by assumption))

theorem tryReadKeywordOrName_progress (cc : CharClass) (fu : Nat)
    (st : LexState) (tok : Token) (st1 : LexState)
    (h : tryReadKeywordOrName cc fu st = .ok (some (tok, st1))) :
    st1.remaining < st.remaining ∧ tok.type ≠ .eof := by
  unfold tryReadKeywordOrName at h
  dsimp only at h
  repeat' split at h
  all_goals (try cases h)
  all_goals (refine ⟨?_, by intro hc; cases hc⟩)
  all_goals
    (rcases scanName_grow cc fu [] Option.none st _ _ _ (by assumption) with
      ⟨hle, ⟨hep2, hst⟩ | hlt⟩)
  all_goals (first | cases hep2 | exact hlt)

theorem advance_pos_lt (st : LexState) (n : Nat) (hn : 0 < n)
    (hp : 0 < st.remaining) :
    ((advance st n).2).remaining < st.remaining := by
  cases n with
  | zero => omega
  | succ m =>
    unfold advance
    split
    · calc ((advance (advance1 st) m).2).remaining
          ≤ (advance1 st).remaining := advance_remaining_le _ _
        _ < st.remaining := by rw [advance1_remaining]; omega
    · unfold LexState.remaining at hp
      omega

theorem peek2_remaining (st : LexState) (a b : Char) (h : peek st 2 0 = [a, b]) :
    2 ≤ st.remaining := by
  unfold peek at h
  have hl := congrArg List.length h
  simp only [List.length_take, List.length_drop, List.length_cons,
    List.length_nil] at hl
  unfold LexState.remaining
  omega

theorem nextToken_not_fuelOut (cfg : CFG) (cc : CharClass)
    (i2sb : Nat → Option (List Nat)) (fu : Nat) (st : LexState)
    (hfu : st.remaining < fu) :
    nextToken cfg cc i2sb fu st ≠ .error .fuelOut := by
  induction fu generalizing st with
  | zero => omega
  | succ fu ih =>
    intro h
    unfold nextToken at h
    dsimp only at h
    split at h
    next => cases h
    next c hpk =>
      have hp : 0 < st.remaining := peekC_isSome st c hpk
      split at h
      next hsp =>
        split at h
        next e heqw =>
          injection h with h
          subst h
          exact skipws_not_fuelOut cc (Nat.succ fu) st (by omega) heqw
        next st1 heqw =>
          unfold skipws at heqw
          rw [hpk] at heqw
          dsimp only at heqw
          rw [if_pos hsp] at heqw
          have h1 := skipws_le cc fu (advance1 st) st1 heqw
          rw [advance1_remaining] at h1
          exact ih st1 (by omega) h
      next =>
        split at h
        next hcm =>
          split at h
          next e heqc =>
            injection h with h
            subst h
            refine commentLoop_not_fuelOut (Nat.succ fu) _ _ ?_ heqc
            have := advance_remaining_le st 2
            omega
          next => cases h
        next =>
          split at h
          next hdig =>
            exact readInt_not_fuelOut cfg cc (Nat.succ fu) st (by omega) h
          next =>
            split at h
            next => exact readCharLiteral_not_fuelOut cfg cc st h
            next =>
              split at h
              next =>
                exact readString_not_fuelOut cc i2sb (Nat.succ fu) st
                  (by omega) h
              next =>
                split at h
                next => cases h
                next =>
                  split at h
                  next e heqk =>
                    injection h with h
                    subst h
                    exact tryReadKeywordOrName_not_fuelOut cc (Nat.succ fu) st
                      (by omega) heqk
                  next => cases h
                  next => cases h

theorem nextToken_progress (cfg : CFG) (cc : CharClass)
    (i2sb : Nat → Option (List Nat)) (fu : Nat) (st : LexState) (t : Token)
    (st' : LexState) (h : nextToken cfg cc i2sb fu st = .ok (t, st'))
    (ht : t.type ≠ .eof) : st'.remaining < st.remaining := by
  induction fu generalizing st with
  | zero => cases h
  | succ fu ih =>
    unfold nextToken at h
    dsimp only at h
    split at h
    next =>
      cases h
      exact absurd rfl ht
    next c hpk =>
      have hp : 0 < st.remaining := peekC_isSome st c hpk
      split at h
      next hsp =>
        split at h
        next e heqw => cases h
        next st1 heqw =>
          unfold skipws at heqw
          rw [hpk] at heqw
          dsimp only at heqw
          rw [if_pos hsp] at heqw
          have h1 := skipws_le cc fu (advance1 st) st1 heqw
          rw [advance1_remaining] at h1
          have h2 := ih st1 h
          omega
      next =>
        split at h
        next hcm =>
          split at h
          next e heqc => cases h
          next val ep st2 heqc =>
            cases h
            have hb := eq_of_beq hcm
            have h2r := peek2_remaining st '/' '*' hb
            have h1 := commentLoop_le (Nat.succ fu) _ _ _ _ heqc
            have h2 := advance_pos_lt st 2 (by omega) (by omega)
            omega
        next =>
          split at h
          next hdig =>
            exact (readInt_progress cfg cc (Nat.succ fu) st t st' h hp).1
          next =>
            split at h
            next =>
              exact (readCharLiteral_progress cfg cc st t st' h hp).1
            next =>
              split at h
              next =>
                exact (readString_progress cc i2sb (Nat.succ fu) st t st' h).1
              next =>
                split at h
                next =>
                  cases h
                  exact (tryReadPunc_progress st _ _ (by assumption) hp).1
                next =>
                  split at h
                  next e heqk => cases h
                  next =>
                    cases h
                    exact (tryReadKeywordOrName_progress cc (Nat.succ fu) st
                      _ _ (by assumption)).1
                  next => cases h

theorem lexAllF_not_fuelOut (cfg : CFG) (cc : CharClass)
    (i2sb : Nat → Option (List Nat)) (fu : Nat) (st : LexState)
    (hfu : st.remaining < fu) :
    lexAllF cfg cc i2sb fu st ≠ .error .fuelOut := by
  induction fu generalizing st with
  | zero => omega
  | succ fu ih =>
    intro h
    unfold lexAllF at h
    split at h
    next e heqt =>
      injection h with h
      subst h
      exact nextToken_not_fuelOut cfg cc i2sb (st.remaining + 1) st
        (by omega) heqt
    next t st1 heqt =>
      split at h
      next => cases h
      next hne =>
        split at h
        next e heql =>
          injection h with h
          subst h
          have hprog := nextToken_progress cfg cc i2sb (st.remaining + 1) st
            t st1 heqt (by simp at hne; exact hne)
          exact ih st1 (by omega) heql
        next => cases h

theorem lexAllF_shape (cfg : CFG) (cc : CharClass)
    (i2sb : Nat → Option (List Nat)) (fu : Nat) (st : LexState)
    (ts : List Token) (h : lexAllF cfg cc i2sb fu st = .ok ts) :
    ∃ pre last, ts = pre ++ [last] ∧ last.type = .eof ∧
      ∀ t ∈ pre, t.type ≠ .eof := by
  induction fu generalizing st ts with
  | zero => cases h
  | succ fu ih =>
    unfold lexAllF at h
    split at h
    next => cases h
    next t st1 heqt =>
      split at h
      next heof =>
        cases h
        exact ⟨[], t, rfl, eq_of_beq heof, by intro t' hmem; cases hmem⟩
      next hne =>
        split at h
        next => cases h
        next ts' heql =>
          cases h
          rcases ih st1 ts' heql with ⟨pre', last', hts, hlast, hpre⟩
          refine ⟨t :: pre', last', by rw [hts]; rfl, hlast, ?_⟩
          intro t' hmem
          rcases List.mem_cons.mp hmem with hmem | hmem
          · subst hmem
            simp at hne
            exact hne
          · exact hpre t' hmem

/-! ## Lexer computation lemmas for integer literals -/

theorem peekC_of_drop (st : LexState) (c : Char) (r : List Char)
    (h : st.source.drop st.srcpos = c :: r) : peekC st 0 = some c := by
  rw [peekC_zero, h]
  rfl

theorem peekC_none_of_drop (st : LexState)
    (h : st.source.drop st.srcpos = []) : peekC st 0 = Option.none := by
  rw [peekC_zero, h]
  rfl

theorem srcpos_lt_of_drop (st : LexState) (c : Char) (r : List Char)
    (h : st.source.drop st.srcpos = c :: r) :
    st.srcpos < st.source.length := by
  by_contra hc
  rw [List.drop_eq_nil_of_le (by omega)] at h
  cases h

theorem drop_succ_of_drop (st : LexState) (c : Char) (r : List Char)
    (h : st.source.drop st.srcpos = c :: r) :
    st.source.drop (st.srcpos + 1) = r := by
  have : st.source.drop (st.srcpos + 1) = (st.source.drop st.srcpos).drop 1 := by
    rw [List.drop_drop]
  rw [this, h]
  rfl

theorem advance1_srcpos (st : LexState) (hlt : st.srcpos < st.source.length) :
    (advance1 st).srcpos = st.srcpos + 1 := by
  unfold advance1
  rw [if_pos hlt]
  rcases hp : peekC st 0 with _ | c
  · exfalso
    have := peekC_none_drop st hp
    have hl := congrArg List.length this
    rw [List.length_drop] at hl
    simp at hl
    omega
  · split
    all_goals (first | (split <;> rfl) | (rename_i heq2; cases heq2))

theorem peekC_one_of_drop (st : LexState) (c : Char) (r : List Char)
    (h : st.source.drop st.srcpos = c :: r) : peekC st 1 = r.head? := by
  unfold peekC
  rw [drop_succ_of_drop st c r h]

theorem scanUnderscores_stop (fu : Nat) (ep : Nat × Nat) (st : LexState)
    (hfu : 0 < fu) (hne : ∀ c, peekC st 0 = some c → c ≠ '_') :
    scanUnderscores fu ep st = .ok (ep, st) := by
  rcases fu with _ | fu
  · omega
  · unfold scanUnderscores
    split
    next heq => exact absurd rfl (hne '_' heq)
    next => rfl

theorem readIntSuffix_suffix (cfg : CFG) (cc : CharClass) (st : LexState)
    (s : Char) (t : IntWidth) (hpk : peekC st 0 = some s)
    (hal : cc.isalpha s = true) (hst : (s, t) ∈ intSuffixPairs) :
    readIntSuffix cfg cc st =
      .ok (t, 1 <<< (cfg.intSizes t * cfg.bitsPerWord),
        some (snapshot st), advance1 st) := by
  fin_cases hst <;>
    (unfold readIntSuffix
     rw [hpk]
     (try dsimp only)
     (try rw [if_pos hal])
     (try rfl))

theorem readIntSuffix_default (cfg : CFG) (cc : CharClass) (st : LexState)
    (h : ∀ c, peekC st 0 = some c → cc.isalpha c = false) :
    readIntSuffix cfg cc st =
      .ok (.int, 1 <<< (cfg.intSizes .int * cfg.bitsPerWord),
        Option.none, st) := by
  unfold readIntSuffix
  rcases hp : peekC st 0 with _ | c
  · rfl
  · dsimp only
    rw [if_neg (by rw [h c hp]; exact Bool.false_ne_true)]

theorem readIntPrefix_base10 (cc : CharClass) (st : LexState)
    (h : ∀ p, peekC st 0 = some '0' → peekC st 1 = some p →
      cc.isalpha p.toLower = false) :
    readIntPrefix cc st = .ok (10, st) := by
  unfold readIntPrefix
  split
  next heq0 =>
    split
    next p heq1 =>
      dsimp only
      rw [if_neg (by rw [h p heq0 heq1]; exact Bool.false_ne_true)]
    next => rfl
  next => rfl

theorem scanUnderscores_run (u : Nat) (fu : Nat) (ep : Nat × Nat)
    (st : LexState) (tail : List Char)
    (hsrc : st.source.drop st.srcpos = List.replicate u '_' ++ tail)
    (htail : ∀ c, tail.head? = some c → c ≠ '_')
    (hfu : st.remaining < fu) :
    ∃ ep' st', scanUnderscores fu ep st = .ok (ep', st') ∧
      st'.source = st.source ∧ st'.srcpos = st.srcpos + u ∧
      st'.success = st.success ∧ st'.warns = st.warns := by
  induction u generalizing fu ep st with
  | zero =>
    rcases fu with _ | fu
    · omega
    refine ⟨ep, st, ?_, rfl, by omega, rfl, rfl⟩
    refine scanUnderscores_stop _ _ _ (by omega) ?_
    intro c hc
    rw [peekC_zero] at hc
    simp only [List.replicate, List.nil_append] at hsrc
    rw [hsrc] at hc
    exact htail c hc
  | succ u ih =>
    rcases fu with _ | fu
    · omega
    have hcons : st.source.drop st.srcpos =
        '_' :: (List.replicate u '_' ++ tail) := by
      simpa [List.replicate] using hsrc
    have hpk := peekC_of_drop st '_' _ hcons
    have hlt := srcpos_lt_of_drop st '_' _ hcons
    have hs2 : (advance1 st).source.drop (advance1 st).srcpos =
        List.replicate u '_' ++ tail := by
      rw [advance1_source, advance1_srcpos st hlt]
      exact drop_succ_of_drop st '_' _ hcons
    have hrem := advance1_remaining st
    have hq := peekC_isSome st '_' hpk
    obtain ⟨ep', st', h1, h2, h3, h4, h5⟩ :=
      ih fu (snapshot st) (advance1 st) hs2 (by omega)
    refine ⟨ep', st', ?_, ?_, ?_, ?_, ?_⟩
    · unfold scanUnderscores
      rw [hpk]
      split
      next => exact h1
      next hne => exact absurd rfl hne
    · rw [h2, advance1_source]
    · rw [h3, advance1_srcpos st hlt]
      omega
    · rw [h4, advance1_success]
    · rw [h5, advance1_warns]

theorem scanNum_groups (chars : List Char) (gs : List (Char × Nat))
    (tail : List Char) (fu : Nat) (acc : List Char)
    (ep : Option (Nat × Nat)) (st : LexState)
    (hd : ∀ g ∈ gs, chars.contains g.1.toUpper = true ∧ g.1 ≠ '_')
    (htail : ∀ c, tail.head? = some c →
      chars.contains c.toUpper = false ∧ c ≠ '_')
    (hsrc : st.source.drop st.srcpos = groupChars gs ++ tail)
    (hfu : st.remaining < fu) :
    ∃ ep' st',
      scanNum chars fu (acc, ep) st = .ok ((acc ++ gs.map Prod.fst, ep'), st') ∧
      st'.source = st.source ∧
      st'.srcpos = st.srcpos + (groupChars gs).length ∧
      st'.success = st.success ∧ st'.warns = st.warns ∧
      (gs = [] → ep' = ep ∧ st' = st) ∧ (gs ≠ [] → ∃ p, ep' = some p) := by
  induction gs generalizing fu acc ep st with
  | nil =>
    rcases fu with _ | fu
    · omega
    have hpk : peekC st 0 = tail.head? := by
      rw [peekC_zero, hsrc]
      rfl
    refine ⟨ep, st, ?_, rfl, by simp [groupChars], rfl, rfl,
      fun _ => ⟨rfl, rfl⟩, fun hc => absurd rfl hc⟩
    rw [show acc ++ List.map Prod.fst [] = acc by simp]
    unfold scanNum
    rcases htl : tail.head? with _ | c
    · rw [hpk, htl]
    · rw [hpk, htl]
      dsimp only
      rw [if_neg (by rw [(htail c htl).1]; exact Bool.false_ne_true)]
  | cons g gs' ih =>
    rcases fu with _ | fu
    · omega
    rcases g with ⟨c, u⟩
    have hcons : st.source.drop st.srcpos =
        c :: (List.replicate u '_' ++ (groupChars gs' ++ tail)) := by
      simpa [groupChars] using hsrc
    have hpk := peekC_of_drop st c _ hcons
    have hlt := srcpos_lt_of_drop st c _ hcons
    have hq := peekC_isSome st c hpk
    have hdc := hd (c, u) (by simp)
    have hs2 : (advance1 st).source.drop (advance1 st).srcpos =
        List.replicate u '_' ++ (groupChars gs' ++ tail) := by
      rw [advance1_source, advance1_srcpos st hlt]
      exact drop_succ_of_drop st c _ hcons
    have hrem1 := advance1_remaining st
    obtain ⟨ep2, st2, hrun, hrs, hrp, hrsu, hrw⟩ :=
      scanUnderscores_run u fu (snapshot st) (advance1 st)
        (groupChars gs' ++ tail)
        hs2
        (by
          intro c2 hc2
          rcases gs' with _ | ⟨⟨c3, u3⟩, gs''⟩
          · simp only [groupChars, List.nil_append] at hc2
            exact (htail c2 hc2).2
          · simp only [groupChars, List.cons_append, List.head?_cons,
              Option.some.injEq] at hc2
            simpa [hc2] using (hd (c3, u3) (by simp)).2)
        (by omega)
    have hs3 : st2.source.drop st2.srcpos = groupChars gs' ++ tail := by
      rw [hrs, hrp, advance1_source, advance1_srcpos st hlt]
      have hdd : st.source.drop (st.srcpos + 1 + u) =
          ((st.source.drop (st.srcpos + 1)).drop u) := by
        rw [List.drop_drop]
      rw [hdd, drop_succ_of_drop st c _ hcons, List.drop_left']
      rw [List.length_replicate]
    have hrem2 : st2.remaining ≤ st.remaining - 1 := by
      unfold LexState.remaining at *
      rw [hrs, hrp, advance1_source, advance1_srcpos st hlt]
      omega
    obtain ⟨ep', st', h1, h2, h3, h4, h5, h6, h7⟩ :=
      ih fu (acc ++ [c]) (some ep2) st2
        (fun g hg => hd g (by simp [hg])) hs3 (by omega)
    refine ⟨ep', st', ?_, ?_, ?_, ?_, ?_, ?_, ?_⟩
    · unfold scanNum
      rw [hpk]
      dsimp only
      rw [if_pos hdc.1, hrun]
      dsimp only
      rw [h1]
      simp
    · rw [h2, hrs, advance1_source]
    · rw [h3, hrp, advance1_srcpos st hlt]
      simp only [groupChars, List.length_cons, List.length_append,
        List.length_replicate]
      omega
    · rw [h4, hrsu, advance1_success]
    · rw [h5, hrw, advance1_warns]
    · intro hc
      cases hc
    · intro _
      rcases Decidable.em (gs' = []) with hD | hD
      · exact ⟨ep2, (h6 hD).1⟩
      · exact h7 hD

theorem readIntPrefix_prefixed (cc : CharClass) (st : LexState) (p : Char)
    (base : Nat) (hpk0 : peekC st 0 = some '0') (hpk1 : peekC st 1 = some p)
    (hal : cc.isalpha p.toLower = true) (hpb : (p, base) ∈ prefixPairs) :
    readIntPrefix cc st = .ok (base, advance1 (advance1 st)) := by
  fin_cases hpb <;>
    (unfold readIntPrefix
     rw [hpk0]
     (try dsimp only)
     rw [hpk1]
     (try dsimp only)
     rw [if_pos hal]
     (try rfl))

theorem contains_ne_underscore (base : Nat) (c : Char)
    (h : (hexDigitsUC.take base).contains c.toUpper = true) : c ≠ '_' := by
  intro hc
  subst hc
  rw [show ('_'.toUpper) = '_' from by decide] at h
  have hmem : '_' ∈ hexDigitsUC.take base := by
    simpa using h
  have h2 := List.take_subset base hexDigitsUC hmem
  simp [hexDigitsUC] at h2

theorem suffix_ne_underscore (s : Char) (t : IntWidth)
    (h : (s, t) ∈ intSuffixPairs) : s ≠ '_' := by
  fin_cases h <;> decide

theorem readInt_groups_suffix (cfg : CFG) (cc : CharClass) (fu : Nat)
    (st st1 : LexState) (base : Nat) (gs : List (Char × Nat)) (s : Char)
    (t : IntWidth) (rest : List Char)
    (hpre : readIntPrefix cc st = .ok (base, st1))
    (hsrc1 : st1.source = st.source) (hsucc1 : st1.success = st.success)
    (hwarns1 : st1.warns = st.warns)
    (hdrop1 : st1.source.drop st1.srcpos = groupChars gs ++ s :: rest)
    (hd : ∀ g ∈ gs, (hexDigitsUC.take base).contains g.1.toUpper = true)
    (hne : gs ≠ [])
    (hsuf : (s, t) ∈ intSuffixPairs)
    (hals : cc.isalpha s = true)
    (hsufstop : (hexDigitsUC.take base).contains s.toUpper = false)
    (hrest : ∀ c, rest.head? = some c → cc.isalpha c = false ∧ c ≠ '_')
    (hfu : st1.remaining < fu) :
    ∃ ep st',
      readInt cfg cc fu st = .ok (⟨.integer,
        .int (natOfDigits base (gs.map Prod.fst) %
          2 ^ (cfg.intSizes t * cfg.bitsPerWord)) t,
        snapshot st, ep⟩, st') ∧
      st'.success = st.success ∧
      st'.warns = st.warns +
        (if 2 ^ (cfg.intSizes t * cfg.bitsPerWord) ≤
            natOfDigits base (gs.map Prod.fst) then 2 else 0) := by
  obtain ⟨ep', st2, hscan, hsrc2, hpos2, hsucc2, hwarns2, hnil2, hcons2⟩ :=
    scanNum_groups (hexDigitsUC.take base) gs (s :: rest) fu [] Option.none
      st1
      (fun g hg => ⟨hd g hg, contains_ne_underscore base g.1 (hd g hg)⟩)
      (by
        intro c hc
        simp only [List.head?_cons, Option.some.injEq] at hc
        subst hc
        exact ⟨hsufstop, suffix_ne_underscore s t hsuf⟩)
      hdrop1 hfu
  have hdrop2 : st2.source.drop st2.srcpos = s :: rest := by
    rw [hsrc2, hpos2]
    have hdd : st1.source.drop (st1.srcpos + (groupChars gs).length) =
        ((st1.source.drop st1.srcpos).drop (groupChars gs).length) := by
      rw [List.drop_drop]
    rw [hdd, hdrop1, List.drop_left]
  have hpk2 : peekC st2 0 = some s := peekC_of_drop st2 s rest hdrop2
  have hsufeq := readIntSuffix_suffix cfg cc st2 s t hpk2 hals hsuf
  have hlt2 : st2.srcpos < st2.source.length :=
    srcpos_lt_of_drop st2 s rest hdrop2
  have hdrop3 : (advance1 st2).source.drop (advance1 st2).srcpos = rest := by
    rw [advance1_source, advance1_srcpos st2 hlt2]
    exact drop_succ_of_drop st2 s rest hdrop2
  have hpk3 : peekC (advance1 st2) 0 = rest.head? := by
    rw [peekC_zero, hdrop3]
  have hmapne : gs.map Prod.fst ≠ [] := by
    rcases gs with _ | ⟨g0, gs0⟩
    · exact absurd rfl hne
    · simp
  unfold readInt
  dsimp only
  rw [hpre]
  dsimp only
  simp only [hscan]
  simp only [List.nil_append]
  rw [if_neg (by
    simp only [beq_iff_eq, List.length_eq_zero]
    exact hmapne)]
  simp only [hsufeq]
  simp only [hpk3]
  have hst4 :
      (match rest.head? with
        | some c =>
          if cc.isalpha c || c == '_' then
            { advance1 st2 with success := false }
          else advance1 st2
        | Option.none => advance1 st2) = advance1 st2 := by
    rcases rest with _ | ⟨r0, rs⟩
    · rfl
    · simp only [List.head?_cons]
      rw [if_neg (by
        have hr := hrest r0 rfl
        simp [hr.1, hr.2])]
  rw [hst4]
  rw [Nat.one_shiftLeft, Nat.and_pow_two_sub_one_eq_mod]
  by_cases hge : 2 ^ (cfg.intSizes t * cfg.bitsPerWord) ≤
      natOfDigits base (gs.map Prod.fst)
  · rw [if_pos (by
      simp only [bne_iff_ne, ne_eq]
      intro hc
      have hpow : 0 < 2 ^ (cfg.intSizes t * cfg.bitsPerWord) :=
        Nat.pos_pow_of_pos _ (by omega)
      have hlt : natOfDigits base (gs.map Prod.fst) %
          2 ^ (cfg.intSizes t * cfg.bitsPerWord) <
          2 ^ (cfg.intSizes t * cfg.bitsPerWord) := Nat.mod_lt _ hpow
      omega)]
    refine ⟨snapshot st2, _, rfl, ?_, ?_⟩
    · show (advance1 st2).success = st.success
      rw [advance1_success, hsucc2, hsucc1]
    · show (advance1 st2).warns + 2 = st.warns + _
      rw [advance1_warns, hwarns2, hwarns1, if_pos hge]
  · rw [if_neg (by
      simp only [bne_iff_ne, ne_eq, Decidable.not_not]
      exact (Nat.mod_eq_of_lt (by omega)).symm)]
    refine ⟨snapshot st2, _, rfl, ?_, ?_⟩
    · rw [advance1_success, hsucc2, hsucc1]
    · rw [advance1_warns, hwarns2, hwarns1, if_neg hge]
      omega

theorem readInt_groups_default (cfg : CFG) (cc : CharClass) (fu : Nat)
    (st st1 : LexState) (base : Nat) (gs : List (Char × Nat))
    (rest : List Char)
    (hpre : readIntPrefix cc st = .ok (base, st1))
    (hsrc1 : st1.source = st.source) (hsucc1 : st1.success = st.success)
    (hwarns1 : st1.warns = st.warns)
    (hdrop1 : st1.source.drop st1.srcpos = groupChars gs ++ rest)
    (hd : ∀ g ∈ gs, (hexDigitsUC.take base).contains g.1.toUpper = true)
    (hne : gs ≠ [])
    (hrest : ∀ c, rest.head? = some c →
      (hexDigitsUC.take base).contains c.toUpper = false ∧
      cc.isalpha c = false ∧ c ≠ '_')
    (hfu : st1.remaining < fu) :
    ∃ ep st',
      readInt cfg cc fu st = .ok (⟨.integer,
        .int (natOfDigits base (gs.map Prod.fst) %
          2 ^ (cfg.intSizes .int * cfg.bitsPerWord)) .int,
        snapshot st, ep⟩, st') ∧
      st'.success = st.success ∧
      st'.warns = st.warns +
        (if 2 ^ (cfg.intSizes .int * cfg.bitsPerWord) ≤
            natOfDigits base (gs.map Prod.fst) then 2 else 0) := by
  obtain ⟨ep', st2, hscan, hsrc2, hpos2, hsucc2, hwarns2, hnil2, hcons2⟩ :=
    scanNum_groups (hexDigitsUC.take base) gs rest fu [] Option.none st1
      (fun g hg => ⟨hd g hg, contains_ne_underscore base g.1 (hd g hg)⟩)
      (fun c hc => ⟨(hrest c hc).1, (hrest c hc).2.2⟩)
      hdrop1 hfu
  have hdrop2 : st2.source.drop st2.srcpos = rest := by
    rw [hsrc2, hpos2]
    have hdd : st1.source.drop (st1.srcpos + (groupChars gs).length) =
        ((st1.source.drop st1.srcpos).drop (groupChars gs).length) := by
      rw [List.drop_drop]
    rw [hdd, hdrop1, List.drop_left]
  have hpk2 : peekC st2 0 = rest.head? := by
    rw [peekC_zero, hdrop2]
  have hsufeq := readIntSuffix_default cfg cc st2 (by
    intro c hc
    rw [hpk2] at hc
    exact (hrest c hc).2.1)
  obtain ⟨p, hp⟩ := hcons2 hne
  have hmapne : gs.map Prod.fst ≠ [] := by
    rcases gs with _ | ⟨g0, gs0⟩
    · exact absurd rfl hne
    · simp
  unfold readInt
  dsimp only
  rw [hpre]
  dsimp only
  simp only [hscan]
  simp only [List.nil_append]
  rw [if_neg (by
    simp only [beq_iff_eq, List.length_eq_zero]
    exact hmapne)]
  simp only [hsufeq]
  simp only [hpk2, hp]
  have hst4 :
      (match rest.head? with
        | some c =>
          if cc.isalpha c || c == '_' then
            { st2 with success := false }
          else st2
        | Option.none => st2) = st2 := by
    rcases rest with _ | ⟨r0, rs⟩
    · rfl
    · simp only [List.head?_cons]
      rw [if_neg (by
        have hr := hrest r0 rfl
        simp [hr.2.1, hr.2.2])]
  rw [hst4]
  rw [Nat.one_shiftLeft, Nat.and_pow_two_sub_one_eq_mod]
  by_cases hge : 2 ^ (cfg.intSizes .int * cfg.bitsPerWord) ≤
      natOfDigits base (gs.map Prod.fst)
  · rw [if_pos (by
      simp only [bne_iff_ne, ne_eq]
      intro hc
      have hpow : 0 < 2 ^ (cfg.intSizes .int * cfg.bitsPerWord) :=
        Nat.pos_pow_of_pos _ (by omega)
      have hlt : natOfDigits base (gs.map Prod.fst) %
          2 ^ (cfg.intSizes .int * cfg.bitsPerWord) <
          2 ^ (cfg.intSizes .int * cfg.bitsPerWord) := Nat.mod_lt _ hpow
      omega)]
    refine ⟨p, _, rfl, ?_, ?_⟩
    · show st2.success = st.success
      rw [hsucc2, hsucc1]
    · show st2.warns + 2 = st.warns + _
      rw [hwarns2, hwarns1, if_pos hge]
  · rw [if_neg (by
      simp only [bne_iff_ne, ne_eq, Decidable.not_not]
      exact (Nat.mod_eq_of_lt (by omega)).symm)]
    refine ⟨p, _, rfl, ?_, ?_⟩
    · rw [hsucc2, hsucc1]
    · rw [hwarns2, hwarns1, if_neg hge]
      omega

theorem readInt_dec10_suffix (cfg : CFG) (cc : CharClass) (fu : Nat)
    (st : LexState) (gs : List (Char × Nat)) (s : Char) (t : IntWidth)
    (rest : List Char)
    (hd : ∀ g ∈ gs, (hexDigitsUC.take 10).contains g.1.toUpper = true)
    (hccg : ∀ c ∈ groupChars gs, cc.isalpha c.toLower = false)
    (hne : gs ≠ []) (hnz : gs ≠ [('0', 0)])
    (hsuf : (s, t) ∈ intSuffixPairs) (hals : cc.isalpha s = true)
    (hsrc : st.source.drop st.srcpos = groupChars gs ++ s :: rest)
    (hrest : ∀ c, rest.head? = some c → cc.isalpha c = false ∧ c ≠ '_')
    (hfu : st.remaining < fu) :
    ∃ ep st',
      readInt cfg cc fu st = .ok (⟨.integer,
        .int (natOfDigits 10 (gs.map Prod.fst) %
          2 ^ (cfg.intSizes t * cfg.bitsPerWord)) t,
        snapshot st, ep⟩, st') ∧
      st'.success = st.success ∧
      st'.warns = st.warns +
        (if 2 ^ (cfg.intSizes t * cfg.bitsPerWord) ≤
            natOfDigits 10 (gs.map Prod.fst) then 2 else 0) := by
  have hsufstop : (hexDigitsUC.take 10).contains s.toUpper = false := by
    fin_cases hsuf <;> decide
  have hpre : readIntPrefix cc st = .ok (10, st) := by
    apply readIntPrefix_base10
    intro p h0 h1
    rcases gs with _ | ⟨⟨c0, u0⟩, gs'⟩
    · exact absurd rfl hne
    have hcons : st.source.drop st.srcpos =
        c0 :: (List.replicate u0 '_' ++ (groupChars gs' ++ (s :: rest))) := by
      simpa [groupChars] using hsrc
    have hpk := peekC_of_drop st c0 _ hcons
    rw [hpk] at h0
    injection h0 with h0
    subst h0
    have h1' := peekC_one_of_drop st '0' _ hcons
    rw [h1'] at h1
    rcases u0 with _ | u'
    · simp only [List.replicate, List.nil_append] at h1
      rcases gs' with _ | ⟨⟨c1, u1⟩, gs''⟩
      · exact absurd rfl hnz
      · simp only [groupChars, List.cons_append, List.head?_cons,
          Option.some.injEq] at h1
        simpa [h1] using hccg c1 (by simp [groupChars])
    · simp only [List.replicate, List.cons_append, List.head?_cons,
        Option.some.injEq] at h1
      (first | rw [← h1] | rw [h1])
      exact hccg '_' (by simp [groupChars, List.replicate])
  exact readInt_groups_suffix cfg cc fu st st 10 gs s t rest hpre rfl rfl rfl
    hsrc hd hne hsuf hals hsufstop hrest hfu

theorem readInt_dec10_default (cfg : CFG) (cc : CharClass) (fu : Nat)
    (st : LexState) (gs : List (Char × Nat)) (rest : List Char)
    (hd : ∀ g ∈ gs, (hexDigitsUC.take 10).contains g.1.toUpper = true)
    (hccg : ∀ c ∈ groupChars gs, cc.isalpha c.toLower = false)
    (hne : gs ≠ [])
    (hsrc : st.source.drop st.srcpos = groupChars gs ++ rest)
    (hrest : ∀ c, rest.head? = some c →
      (hexDigitsUC.take 10).contains c.toUpper = false ∧
      cc.isalpha c = false ∧ cc.isalpha c.toLower = false ∧ c ≠ '_')
    (hfu : st.remaining < fu) :
    ∃ ep st',
      readInt cfg cc fu st = .ok (⟨.integer,
        .int (natOfDigits 10 (gs.map Prod.fst) %
          2 ^ (cfg.intSizes .int * cfg.bitsPerWord)) .int,
        snapshot st, ep⟩, st') ∧
      st'.success = st.success ∧
      st'.warns = st.warns +
        (if 2 ^ (cfg.intSizes .int * cfg.bitsPerWord) ≤
            natOfDigits 10 (gs.map Prod.fst) then 2 else 0) := by
  have hpre : readIntPrefix cc st = .ok (10, st) := by
    apply readIntPrefix_base10
    intro p h0 h1
    rcases gs with _ | ⟨⟨c0, u0⟩, gs'⟩
    · exact absurd rfl hne
    have hcons : st.source.drop st.srcpos =
        c0 :: (List.replicate u0 '_' ++ (groupChars gs' ++ rest)) := by
      simpa [groupChars] using hsrc
    have hpk := peekC_of_drop st c0 _ hcons
    rw [hpk] at h0
    injection h0 with h0
    subst h0
    have h1' := peekC_one_of_drop st '0' _ hcons
    rw [h1'] at h1
    rcases u0 with _ | u'
    · simp only [List.replicate, List.nil_append] at h1
      rcases gs' with _ | ⟨⟨c1, u1⟩, gs''⟩
      · simp only [groupChars, List.nil_append] at h1
        exact (hrest p h1).2.2.1
      · simp only [groupChars, List.cons_append, List.head?_cons,
          Option.some.injEq] at h1
        simpa [h1] using hccg c1 (by simp [groupChars])
    · simp only [List.replicate, List.cons_append, List.head?_cons,
        Option.some.injEq] at h1
      (first | rw [← h1] | rw [h1])
      exact hccg '_' (by simp [groupChars, List.replicate])
  exact readInt_groups_default cfg cc fu st st 10 gs rest hpre rfl rfl rfl
    hsrc hd hne
    (fun c hc => ⟨(hrest c hc).1, (hrest c hc).2.1, (hrest c hc).2.2.2⟩) hfu

theorem readInt_prefixed_suffix (cfg : CFG) (cc : CharClass) (fu : Nat)
    (st : LexState) (p : Char) (base : Nat) (gs : List (Char × Nat))
    (s : Char) (t : IntWidth) (rest : List Char)
    (hpb : (p, base) ∈ prefixPairs) (halp : cc.isalpha p.toLower = true)
    (hd : ∀ g ∈ gs, (hexDigitsUC.take base).contains g.1.toUpper = true)
    (hne : gs ≠ [])
    (hsuf : (s, t) ∈ intSuffixPairs) (hals : cc.isalpha s = true)
    (hsrc : st.source.drop st.srcpos =
      '0' :: p :: (groupChars gs ++ s :: rest))
    (hrest : ∀ c, rest.head? = some c → cc.isalpha c = false ∧ c ≠ '_')
    (hfu : st.remaining < fu) :
    ∃ ep st',
      readInt cfg cc fu st = .ok (⟨.integer,
        .int (natOfDigits base (gs.map Prod.fst) %
          2 ^ (cfg.intSizes t * cfg.bitsPerWord)) t,
        snapshot st, ep⟩, st') ∧
      st'.success = st.success ∧
      st'.warns = st.warns +
        (if 2 ^ (cfg.intSizes t * cfg.bitsPerWord) ≤
            natOfDigits base (gs.map Prod.fst) then 2 else 0) := by
  have hsufstop : (hexDigitsUC.take base).contains s.toUpper = false := by
    fin_cases hpb <;> fin_cases hsuf <;> decide
  have hpk0 := peekC_of_drop st '0' _ hsrc
  have hlt0 := srcpos_lt_of_drop st '0' _ hsrc
  have hpk1 : peekC st 1 = some p := by
    rw [peekC_one_of_drop st '0' _ hsrc]
    rfl
  have hpre := readIntPrefix_prefixed cc st p base hpk0 hpk1 halp hpb
  have hdropA : (advance1 st).source.drop (advance1 st).srcpos =
      p :: (groupChars gs ++ s :: rest) := by
    rw [advance1_source, advance1_srcpos st hlt0]
    exact drop_succ_of_drop st '0' _ hsrc
  have hltA := srcpos_lt_of_drop (advance1 st) p _ hdropA
  have hdrop1 : (advance1 (advance1 st)).source.drop
      (advance1 (advance1 st)).srcpos = groupChars gs ++ s :: rest := by
    rw [advance1_source, advance1_srcpos (advance1 st) hltA]
    exact drop_succ_of_drop (advance1 st) p _ hdropA
  have hq := peekC_isSome st '0' hpk0
  have hfu1 : (advance1 (advance1 st)).remaining < fu := by
    rw [advance1_remaining, advance1_remaining]
    omega
  exact readInt_groups_suffix cfg cc fu st (advance1 (advance1 st)) base gs
    s t rest hpre
    (by rw [advance1_source, advance1_source])
    (by rw [advance1_success, advance1_success])
    (by rw [advance1_warns, advance1_warns])
    hdrop1 hd hne hsuf hals hsufstop hrest hfu1

theorem readInt_prefixed_default (cfg : CFG) (cc : CharClass) (fu : Nat)
    (st : LexState) (p : Char) (base : Nat) (gs : List (Char × Nat))
    (rest : List Char)
    (hpb : (p, base) ∈ prefixPairs) (halp : cc.isalpha p.toLower = true)
    (hd : ∀ g ∈ gs, (hexDigitsUC.take base).contains g.1.toUpper = true)
    (hne : gs ≠ [])
    (hsrc : st.source.drop st.srcpos = '0' :: p :: (groupChars gs ++ rest))
    (hrest : ∀ c, rest.head? = some c →
      (hexDigitsUC.take base).contains c.toUpper = false ∧
      cc.isalpha c = false ∧ c ≠ '_')
    (hfu : st.remaining < fu) :
    ∃ ep st',
      readInt cfg cc fu st = .ok (⟨.integer,
        .int (natOfDigits base (gs.map Prod.fst) %
          2 ^ (cfg.intSizes .int * cfg.bitsPerWord)) .int,
        snapshot st, ep⟩, st') ∧
      st'.success = st.success ∧
      st'.warns = st.warns +
        (if 2 ^ (cfg.intSizes .int * cfg.bitsPerWord) ≤
            natOfDigits base (gs.map Prod.fst) then 2 else 0) := by
  have hpk0 := peekC_of_drop st '0' _ hsrc
  have hlt0 := srcpos_lt_of_drop st '0' _ hsrc
  have hpk1 : peekC st 1 = some p := by
    rw [peekC_one_of_drop st '0' _ hsrc]
    rfl
  have hpre := readIntPrefix_prefixed cc st p base hpk0 hpk1 halp hpb
  have hdropA : (advance1 st).source.drop (advance1 st).srcpos =
      p :: (groupChars gs ++ rest) := by
    rw [advance1_source, advance1_srcpos st hlt0]
    exact drop_succ_of_drop st '0' _ hsrc
  have hltA := srcpos_lt_of_drop (advance1 st) p _ hdropA
  have hdrop1 : (advance1 (advance1 st)).source.drop
      (advance1 (advance1 st)).srcpos = groupChars gs ++ rest := by
    rw [advance1_source, advance1_srcpos (advance1 st) hltA]
    exact drop_succ_of_drop (advance1 st) p _ hdropA
  have hq := peekC_isSome st '0' hpk0
  have hfu1 : (advance1 (advance1 st)).remaining < fu := by
    rw [advance1_remaining, advance1_remaining]
    omega
  exact readInt_groups_default cfg cc fu st (advance1 (advance1 st)) base gs
    rest hpre
    (by rw [advance1_source, advance1_source])
    (by rw [advance1_success, advance1_success])
    (by rw [advance1_warns, advance1_warns])
    hdrop1 hd hne hrest hfu1

/-! ## Claims -/

/-- C1: the claim says every label on an `IfStmt`/`IterStmt` is
registered as a `LabelSymbol` in its enclosing scope, so that
`outer: while (1) { while (1) { break outer; } }` checks successfully
with the break's `symref` bound to the outer loop.  In the source no
builder method ever creates or binds a `LabelSymbol`, so the module
table is built with an empty label namespace and the checker's
`get_labelsym` lookup for `outer` fails: the pipeline aborts with the
fatal `{C70}` `L_LABEL_NOT_EXIST` instead of succeeding. -/
theorem C1_labeled_break_fatal :
    compileCheck progLabeledBreak = .error (.chkFatal 70) ∧
    (∃ tab m', buildModule progLabeledBreak = .ok (tab, m') ∧ tab.labels = []) :=
  ⟨rfl, ⟨_, _, rfl, rfl⟩⟩

/-- C2: the claim says `ExpandType` always returns `None` or an AST
`Type` node, never a symbol-table object.  The loop body assigns
`scope.get_typesym(...)` — the `TypeSymbol` itself, not its stored type —
and a `TypeSymbol` is not a `RefType`, so for a defined reference the
function returns that `TypeSymbol` (here: `tySym "A" int`, with
`isinstance(result, ast.Type)` false); only the unknown-name case
(`None`) behaves as claimed. -/
theorem C2_ExpandType_returns_symbol :
    ExpandType scopeWithA (.ref false "A") = Ty.tySym "A" tyInt ∧
    tyIsType (ExpandType scopeWithA (.ref false "A")) = false ∧
    ExpandType scopeWithA (.ref false "B") = Ty.noneV :=
  ⟨rfl, rfl, rfl⟩

/-- C3: the claim says a `ConstDecl` inside a function body is bound in
the local scope so a later `NameExpr` resolves.  `visit_ConstDecl`'s
guard is `if not self.globalpass` — missing the `curtab.is_global()`
conjunct its own debug message ("ignoring global constdefs") describes —
so local constants are skipped in the local pass (and bodies are not
entered in the global pass): the `return c` then hits the fatal `{ST20}`
`L_USE_BEFORE_DECL`. -/
theorem C3_local_const_use_before_decl :
    buildModule progLocalConst = .error (.stFatal 20) := rfl

/-- C4: the claim says `CompareTypesEquiv` is reflexive, including on
defined `RefType`s, `FuncType`s and records.  In the source a defined
`RefType` expands to its `TypeSymbol` on both sides, which falls through
to `CompareTypesEq`'s `isinstance` guard and yields `False`; comparing
two `FuncType`s or two non-empty records raises `TypeError` (`none`
here), because the recursive calls omit the mandatory `scope` argument
and `memEq` is mapped over a zip of pairs.  Reflexivity survives only on
the simple shapes (e.g. `int`). -/
theorem C4_equiv_not_reflexive :
    CompareTypesEquiv scopeWithA (.ref false "A") (.ref false "A") = some false ∧
    CompareTypesEquiv scopeWithA (.func false (.void false) [] false)
      (.func false (.void false) [] false) = Option.none ∧
    CompareTypesEquiv scopeWithA (.strct false [.mk "m" tyInt Option.none])
      (.strct false [.mk "m" tyInt Option.none]) = Option.none ∧
    CompareTypesEquiv scopeWithA tyInt tyInt = some true :=
  ⟨rfl, rfl, rfl, rfl⟩

/-- C6 (counterexample): the claim says checking
`func f() -> (int) { let x: int; x := 1l; return x; }` succeeds with a
downgrade warning and a cast rewritten into the assignment.  The
pipeline instead aborts with the fatal `{C50}` type mismatch raised by
`visit_AssignExpr` (which contains no cast-insertion logic at all). -/
theorem C6_assign_long_fatal_counterexample :
    compileCheck progAssignLong = .error (.chkFatal 50) := rfl

/-- C6 (amended): checking that program fails: `visit_AssignExpr`
requires the two sides to be equivalent and raises the fatal `{C50}`
type mismatch on `x := 1l` (the right side's `IntExpr.type` is the
parser's plain string, which `CompareTypesEquiv` rejects outright — and
`int` and `long` would not be equivalent either way); no `CastExpr` is
ever inserted into an assignment. -/
theorem C6_assign_long_fatal :
    checkExpr ⟨scopeAssignLong, tyInt, Option.none, Option.none⟩
      (.assign Span.none (.name Span.none "x")
        (.intE Span.none (.pyStr "long") 1) Option.none) = .error (.chkFatal 50) ∧
    CompareTypesEquiv scopeAssignLong tyInt (.pyStr "long") = some false ∧
    CompareTypesEquiv scopeAssignLong tyInt (.int false .long) = some false :=
  ⟨rfl, rfl, rfl⟩

/-- C7: the claim says the lvalue rules include "Ternary is an lvalue
iff both branches are", and that querying a ternary's lvalueness (as
`visit_AddrOfExpr` and `visit_AssignExpr` do) returns that value.
`ExprPropertyChecker.visit_TernaryExpr` calls `true_prop.is_value()`, a
method `ExprProperty` does not define, so the query raises
`AttributeError` after visiting the two branches: `&(x ? x : x)` and
`(x ? x : x) := x` both crash instead of being checked.  The fixed
mapping for the other claimed forms does hold (`Index`/`Access`/`Deref`/
`Assign`/`Name`-bound-to-var are lvalues). -/
theorem C7_ternary_lvalue_crash :
    propcheck ctxArrInt.scope (.ternary Span.none (.name Span.none "x")
      (.name Span.none "x") (.name Span.none "x")) = Option.none ∧
    checkExpr ctxArrInt (.addrOf Span.none (.ternary Span.none (.name Span.none "x")
      (.name Span.none "x") (.name Span.none "x"))) = .error .pycrash ∧
    checkExpr ctxArrInt (.assign Span.none
      (.ternary Span.none (.name Span.none "x") (.name Span.none "x")
        (.name Span.none "x"))
      (.name Span.none "x") Option.none) = .error .pycrash ∧
    propcheck ctxArrInt.scope (.name Span.none "x") = some ⟨false, true⟩ ∧
    propcheck ctxArrInt.scope (.index Span.none (.name Span.none "a")
      (.name Span.none "x")) = some ⟨false, true⟩ ∧
    propcheck ctxArrInt.scope (.access Span.none (.name Span.none "x") "m") =
      some ⟨false, true⟩ ∧
    propcheck ctxArrInt.scope (.deref Span.none (.name Span.none "a")) =
      some ⟨false, true⟩ ∧
    propcheck ctxArrInt.scope (.assign Span.none (.name Span.none "x")
      (.name Span.none "x") Option.none) = some ⟨false, true⟩ :=
  ⟨rfl, rfl, rfl, rfl, rfl, rfl, rfl, rfl⟩

/-- C9: the claim says `let a: [] int := { 1, 2, 3, 4 };` checks
successfully and patches the declared array size to 4.  The parser
stores the token's `int_type` *string* into `IntExpr.type` (the
`astnodes.IntExpr` annotation declares an `IntType` node), so
`GetExpressionType` on every element returns that string and
`visit_ComplexExpr`'s element-equivalence test — whose
`isinstance(..., ast.Type)` guard rejects strings — raises the fatal
`{C50}` before `__check_Decl` could ever patch the size. -/
theorem C9_array_init_fatal :
    compileCheck progArrayInit = .error (.chkFatal 50) ∧
    GetExpressionType [] (.intE Span.none (.pyStr "int") 1) = some (.pyStr "int") ∧
    CompareTypesEquiv [] (.pyStr "int") (.pyStr "int") = some false :=
  ⟨rfl, rfl, rfl⟩

/-- C5 (counterexample): the claim says a cast is inserted iff the
operand types are not equivalent *and both operands have integer types*.
For `a + x` with `a : [] int` (an array/pointer) and `x : int`, checking
succeeds — `CanCastTypes` admits the int/array family and `Add` is legal
for arrays — and the checker still wraps the right operand in
`Cast(signed=false)` to the left (array) type, though the left operand's
type is not an integer type. -/
theorem C5_cast_without_both_ints :
    checkExpr ctxArrInt (.binary spW (.name spL "a") .add (.name spR "x")) =
      .ok (.binary spW (.name spL "a") .add
        (.cast spR (.name spR "x") (.array false tyInt Option.none) false)) ∧
    GetExpressionType ctxArrInt.scope (.name spL "a") =
      some (.array false tyInt Option.none) ∧
    isIntTy (.array false tyInt Option.none) = false :=
  ⟨rfl, rfl, rfl⟩

/-- C5: the claim says the checker inserts a cast on the right operand of
a binary (or binary-conditional) expression iff both operand types are
integers that are not equivalent.  In the source, `visit_BinaryExpr` and
`visit_BinaryCondExpr` insert the cast under the single condition
`not CompareTypesEquiv(scope, left_t, right_t)` — no integer test — so
the amended property holds: whenever checking such an expression
succeeds, the result keeps the right operand unchanged when the operand
types are equivalent and otherwise wraps it in
`CastExpr(cast_type=left_t, signed=False)` carrying the original right
operand's spans. -/
theorem C5_cast_insertion_iff :
    (∀ (ctx : Ctx) (sp : Span) (l : Expr) (op : BinOp) (r res : Expr),
      checkExpr ctx (.binary sp l op r) = .ok res →
      ∃ l' r' lt rt b,
        checkExpr ctx l = .ok l' ∧ checkExpr ctx r = .ok r' ∧
        GetExpressionType ctx.scope l' = some lt ∧
        GetExpressionType ctx.scope r' = some rt ∧
        CompareTypesEquiv ctx.scope lt rt = some b ∧
        exprSpan r' = exprSpan r ∧
        res = .binary sp l' op (if b then r' else .cast (exprSpan r) r' lt false)) ∧
    (∀ (ctx : Ctx) (sp : Span) (l : Expr) (op : BinCOp) (r res : Expr),
      checkExpr ctx (.binaryCond sp l op r) = .ok res →
      ∃ l' r' lt rt b,
        checkExpr ctx l = .ok l' ∧ checkExpr ctx r = .ok r' ∧
        GetExpressionType ctx.scope l' = some lt ∧
        GetExpressionType ctx.scope r' = some rt ∧
        CompareTypesEquiv ctx.scope lt rt = some b ∧
        exprSpan r' = exprSpan r ∧
        res = .binaryCond sp l' op (if b then r' else .cast (exprSpan r) r' lt false)) :=
  ⟨checkExpr_binary_inv, checkExpr_binaryCond_inv⟩

theorem C5_cast_insertion_iff_witness :
    ∃ l' r' lt rt b,
      checkExpr ctxArrInt (.name spL "a") = .ok l' ∧
      checkExpr ctxArrInt (.name spR "x") = .ok r' ∧
      GetExpressionType ctxArrInt.scope l' = some lt ∧
      GetExpressionType ctxArrInt.scope r' = some rt ∧
      CompareTypesEquiv ctxArrInt.scope lt rt = some b ∧
      exprSpan r' = exprSpan (Expr.name spR "x") ∧
      Expr.binary spW (.name spL "a") .add
          (.cast spR (.name spR "x") (.array false tyInt Option.none) false) =
        .binary spW l' .add
          (if b then r' else .cast (exprSpan (Expr.name spR "x")) r' lt false) :=
  C5_cast_insertion_iff.1 ctxArrInt spW (.name spL "a") .add (.name spR "x")
    (.binary spW (.name spL "a") .add
      (.cast spR (.name spR "x") (.array false tyInt Option.none) false)) rfl

/-- C10 (counterexample): the claim says `lex_all` either raises after a
fatal diagnostic or terminates normally.  On the four-character input
`/**/` the comment-body loop exits on its first iteration, so its
`end_pos` local is never assigned and the token construction raises an
`UnboundLocalError` — a Python crash with no diagnostic (the
configuration and `int_to_smallest_bytes` are never consulted on this
path). -/
theorem C10_empty_comment_crash :
    lexAll cfgW asciiCC i2sbW ['/', '*', '*', '/'] = .error .pycrash := rfl

/-- C10: amended property.  For every configuration, character
classifier, `int_to_smallest_bytes` and input, `lex_all` terminates (the
fuel the embedding supplies is never exhausted — the source's loops
always consume input); when it returns a token list, that list is a
(possibly empty) run of non-EOF tokens followed by exactly one EOF
token; and on empty input it is exactly one EOF token spanning
`(1, 0)`–`(1, 0)`.  (The claim's "either raises after a fatal
diagnostic" clause needs the counterexample's amendment: the empty
comment raises with no diagnostic.) -/
theorem C10_lex_all_total_shape :
    (∀ (cfg : CFG) (cc : CharClass) (i2sb : Nat → Option (List Nat))
      (src : List Char), lexAll cfg cc i2sb src ≠ .error .fuelOut) ∧
    (∀ (cfg : CFG) (cc : CharClass) (i2sb : Nat → Option (List Nat))
      (src : List Char) (ts : List Token), lexAll cfg cc i2sb src = .ok ts →
      ∃ pre last, ts = pre ++ [last] ∧ last.type = .eof ∧
        ∀ t ∈ pre, t.type ≠ .eof) ∧
    (∀ (cfg : CFG) (cc : CharClass) (i2sb : Nat → Option (List Nat)),
      lexAll cfg cc i2sb [] = .ok [⟨.eof, .none, (1, 0), (1, 0)⟩]) := by
  refine ⟨?_, ?_, ?_⟩
  · intro cfg cc i2sb src
    unfold lexAll
    apply lexAllF_not_fuelOut
    simp only [LexState.init, LexState.remaining]
    omega
  · intro cfg cc i2sb src ts h
    exact lexAllF_shape cfg cc i2sb _ _ ts h
  · intro cfg cc i2sb
    rfl

theorem C10_lex_all_total_shape_witness :
    lexAll cfgW asciiCC i2sbW ['x'] ≠ .error .fuelOut ∧
    (∃ pre last,
      [(⟨.name, .str "x", (1, 0), (1, 0)⟩ : Token),
       ⟨.eof, .none, (1, 1), (1, 1)⟩] = pre ++ [last] ∧
      last.type = .eof ∧ ∀ t ∈ pre, t.type ≠ .eof) ∧
    lexAll cfgW asciiCC i2sbW [] = .ok [⟨.eof, .none, (1, 0), (1, 0)⟩] :=
  ⟨C10_lex_all_total_shape.1 cfgW asciiCC i2sbW ['x'],
   C10_lex_all_total_shape.2.1 cfgW asciiCC i2sbW ['x'] _ rfl,
   C10_lex_all_total_shape.2.2 cfgW asciiCC i2sbW⟩

/-- C8 (counterexample): the claim says every integer literal with a
suffix produces an Integer token with the truncated value.  For the
literal `0l` the digit value is 0 and the suffix selects `long`, but
`_readInt` sees `0` followed by a letter and treats the suffix as a
base prefix: since `l` is not `b`/`o`/`x` it raises the fatal `{L10}`
and no token is produced. -/
theorem C8_zero_suffix_fatal :
    lexAll cfgW asciiCC i2sbW ['0', 'l'] = .error (.fatal 10) := rfl

/-- C8: amended property.  For every integer literal the lexer actually
accepts — decimal or `0b`/`0o`/`0x`-prefixed, each digit optionally
followed by a run of underscores (the groups `gs`), with an optional
`i`/`l`/`q` suffix (any case) selecting the width `t` (default `int`),
followed by a character that cannot extend the literal — `_readInt`
returns an Integer token whose value is the digit value reduced
`mod 2^(INT_SIZES[t]·BITS_PER_WORD)`, emits exactly two warnings when
the value exceeds that range and none otherwise, and never changes the
`success` flag: truncation neither aborts nor blocks lexing.  The one
family the original claim covered that is excluded is the literal `0`
followed immediately by a suffix, where `_readInt` instead raises the
fatal `{L10}` (the counterexample); the ambient Unicode classifiers
(`str.isalpha`) are pinned by hypotheses. -/
theorem C8_int_literal_truncation :
    (∀ (cfg : CFG) (cc : CharClass) (fu : Nat) (st : LexState)
      (gs : List (Char × Nat)) (s : Char) (t : IntWidth) (rest : List Char),
      (∀ g ∈ gs, (hexDigitsUC.take 10).contains g.1.toUpper = true) →
      (∀ c ∈ groupChars gs, cc.isalpha c.toLower = false) →
      gs ≠ [] → gs ≠ [('0', 0)] →
      (s, t) ∈ intSuffixPairs →
      cc.isalpha s = true →
      st.source.drop st.srcpos = groupChars gs ++ s :: rest →
      (∀ c, rest.head? = some c → cc.isalpha c = false ∧ c ≠ '_') →
      st.remaining < fu →
      ∃ ep st',
        readInt cfg cc fu st = .ok (⟨.integer,
          .int (natOfDigits 10 (gs.map Prod.fst) %
            2 ^ (cfg.intSizes t * cfg.bitsPerWord)) t,
          snapshot st, ep⟩, st') ∧
        st'.success = st.success ∧
        st'.warns = st.warns +
          (if 2 ^ (cfg.intSizes t * cfg.bitsPerWord) ≤
              natOfDigits 10 (gs.map Prod.fst) then 2 else 0)) ∧
    (∀ (cfg : CFG) (cc : CharClass) (fu : Nat) (st : LexState)
      (gs : List (Char × Nat)) (rest : List Char),
      (∀ g ∈ gs, (hexDigitsUC.take 10).contains g.1.toUpper = true) →
      (∀ c ∈ groupChars gs, cc.isalpha c.toLower = false) →
      gs ≠ [] →
      st.source.drop st.srcpos = groupChars gs ++ rest →
      (∀ c, rest.head? = some c →
        (hexDigitsUC.take 10).contains c.toUpper = false ∧
        cc.isalpha c = false ∧ cc.isalpha c.toLower = false ∧ c ≠ '_') →
      st.remaining < fu →
      ∃ ep st',
        readInt cfg cc fu st = .ok (⟨.integer,
          .int (natOfDigits 10 (gs.map Prod.fst) %
            2 ^ (cfg.intSizes .int * cfg.bitsPerWord)) .int,
          snapshot st, ep⟩, st') ∧
        st'.success = st.success ∧
        st'.warns = st.warns +
          (if 2 ^ (cfg.intSizes .int * cfg.bitsPerWord) ≤
              natOfDigits 10 (gs.map Prod.fst) then 2 else 0)) ∧
    (∀ (cfg : CFG) (cc : CharClass) (fu : Nat) (st : LexState) (p : Char)
      (base : Nat) (gs : List (Char × Nat)) (s : Char) (t : IntWidth)
      (rest : List Char),
      (p, base) ∈ prefixPairs →
      cc.isalpha p.toLower = true →
      (∀ g ∈ gs, (hexDigitsUC.take base).contains g.1.toUpper = true) →
      gs ≠ [] →
      (s, t) ∈ intSuffixPairs →
      cc.isalpha s = true →
      st.source.drop st.srcpos = '0' :: p :: (groupChars gs ++ s :: rest) →
      (∀ c, rest.head? = some c → cc.isalpha c = false ∧ c ≠ '_') →
      st.remaining < fu →
      ∃ ep st',
        readInt cfg cc fu st = .ok (⟨.integer,
          .int (natOfDigits base (gs.map Prod.fst) %
            2 ^ (cfg.intSizes t * cfg.bitsPerWord)) t,
          snapshot st, ep⟩, st') ∧
        st'.success = st.success ∧
        st'.warns = st.warns +
          (if 2 ^ (cfg.intSizes t * cfg.bitsPerWord) ≤
              natOfDigits base (gs.map Prod.fst) then 2 else 0)) ∧
    (∀ (cfg : CFG) (cc : CharClass) (fu : Nat) (st : LexState) (p : Char)
      (base : Nat) (gs : List (Char × Nat)) (rest : List Char),
      (p, base) ∈ prefixPairs →
      cc.isalpha p.toLower = true →
      (∀ g ∈ gs, (hexDigitsUC.take base).contains g.1.toUpper = true) →
      gs ≠ [] →
      st.source.drop st.srcpos = '0' :: p :: (groupChars gs ++ rest) →
      (∀ c, rest.head? = some c →
        (hexDigitsUC.take base).contains c.toUpper = false ∧
        cc.isalpha c = false ∧ c ≠ '_') →
      st.remaining < fu →
      ∃ ep st',
        readInt cfg cc fu st = .ok (⟨.integer,
          .int (natOfDigits base (gs.map Prod.fst) %
            2 ^ (cfg.intSizes .int * cfg.bitsPerWord)) .int,
          snapshot st, ep⟩, st') ∧
        st'.success = st.success ∧
        st'.warns = st.warns +
          (if 2 ^ (cfg.intSizes .int * cfg.bitsPerWord) ≤
              natOfDigits base (gs.map Prod.fst) then 2 else 0)) :=
  ⟨readInt_dec10_suffix, readInt_dec10_default,
   readInt_prefixed_suffix, readInt_prefixed_default⟩

theorem C8_int_literal_truncation_witness :
    (∃ ep st',
      readInt cfgW asciiCC 7 (LexState.init "70000i".toList) = .ok (⟨.integer,
        .int (natOfDigits 10
            ([(('7' : Char), (0 : Nat)), ('0', 0), ('0', 0), ('0', 0),
              ('0', 0)].map Prod.fst) %
          2 ^ (cfgW.intSizes .int * cfgW.bitsPerWord)) .int,
        snapshot (LexState.init "70000i".toList), ep⟩, st') ∧
      st'.success = (LexState.init "70000i".toList).success ∧
      st'.warns = (LexState.init "70000i".toList).warns +
        (if 2 ^ (cfgW.intSizes .int * cfgW.bitsPerWord) ≤
            natOfDigits 10
              ([(('7' : Char), (0 : Nat)), ('0', 0), ('0', 0), ('0', 0),
                ('0', 0)].map Prod.fst) then 2 else 0)) ∧
    (∃ ep st',
      readInt cfgW asciiCC 2 (LexState.init "5".toList) = .ok (⟨.integer,
        .int (natOfDigits 10 ([(('5' : Char), (0 : Nat))].map Prod.fst) %
          2 ^ (cfgW.intSizes .int * cfgW.bitsPerWord)) .int,
        snapshot (LexState.init "5".toList), ep⟩, st') ∧
      st'.success = (LexState.init "5".toList).success ∧
      st'.warns = (LexState.init "5".toList).warns +
        (if 2 ^ (cfgW.intSizes .int * cfgW.bitsPerWord) ≤
            natOfDigits 10 ([(('5' : Char), (0 : Nat))].map Prod.fst)
          then 2 else 0)) ∧
    (∃ ep st',
      readInt cfgW asciiCC 7 (LexState.init "0b1_1l".toList) = .ok (⟨.integer,
        .int (natOfDigits 2
            ([(('1' : Char), (1 : Nat)), ('1', 0)].map Prod.fst) %
          2 ^ (cfgW.intSizes .long * cfgW.bitsPerWord)) .long,
        snapshot (LexState.init "0b1_1l".toList), ep⟩, st') ∧
      st'.success = (LexState.init "0b1_1l".toList).success ∧
      st'.warns = (LexState.init "0b1_1l".toList).warns +
        (if 2 ^ (cfgW.intSizes .long * cfgW.bitsPerWord) ≤
            natOfDigits 2
              ([(('1' : Char), (1 : Nat)), ('1', 0)].map Prod.fst)
          then 2 else 0)) ∧
    (∃ ep st',
      readInt cfgW asciiCC 5 (LexState.init "0xFf".toList) = .ok (⟨.integer,
        .int (natOfDigits 16
            ([(('F' : Char), (0 : Nat)), ('f', 0)].map Prod.fst) %
          2 ^ (cfgW.intSizes .int * cfgW.bitsPerWord)) .int,
        snapshot (LexState.init "0xFf".toList), ep⟩, st') ∧
      st'.success = (LexState.init "0xFf".toList).success ∧
      st'.warns = (LexState.init "0xFf".toList).warns +
        (if 2 ^ (cfgW.intSizes .int * cfgW.bitsPerWord) ≤
            natOfDigits 16
              ([(('F' : Char), (0 : Nat)), ('f', 0)].map Prod.fst)
          then 2 else 0)) :=
  ⟨C8_int_literal_truncation.1 cfgW asciiCC 7
      (LexState.init "70000i".toList)
      [('7', 0), ('0', 0), ('0', 0), ('0', 0), ('0', 0)] 'i' .int []
      (by decide) (by decide) (by decide) (by decide) (by decide) (by decide)
      (by decide) (by intro c hc; cases hc) (by decide),
   C8_int_literal_truncation.2.1 cfgW asciiCC 2 (LexState.init "5".toList)
      [('5', 0)] []
      (by decide) (by decide) (by decide) (by decide)
      (by intro c hc; cases hc) (by decide),
   C8_int_literal_truncation.2.2.1 cfgW asciiCC 7
      (LexState.init "0b1_1l".toList) 'b' 2 [('1', 1), ('1', 0)] 'l' .long []
      (by decide) (by decide) (by decide) (by decide) (by decide) (by decide)
      (by decide) (by intro c hc; cases hc) (by decide),
   C8_int_literal_truncation.2.2.2 cfgW asciiCC 5
      (LexState.init "0xFf".toList) 'x' 16 [('F', 0), ('f', 0)] []
      (by decide) (by decide) (by decide) (by decide) (by decide)
      (by intro c hc; cases hc) (by decide)⟩
